import Mathlib

/-!
Verification development for the capital-nature-ingest event scrapers.

The repository has two independent pipelines:
* `src/events/arlington.py` — a paginated JSON-API fetcher plus per-item
  normalisation (`get_arlington_events`, `get_event_website`,
  `html_textraction`, `parse_event_name`, `schematize_date`,
  `schematize_events`);
* `src/events/patc.py` — an HTML calendar crawler plus a pandas-based
  normalisation (`find_event_data`, `format_df_time_columns`, `main`).

The Python code is embedded shallowly: HTTP requests become explicit
function parameters returning `Except` (an exception is `.error`),
BeautifulSoup documents become an explicit node tree, and pandas
data frames become lists of association lists.  Machine-level details
that the code relies on (CPython `strptime` field regexes, `str.replace`
left-to-right non-overlapping semantics, `str.strip` whitespace set) are
reproduced from the CPython semantics the code runs under.
-/

namespace CapitalNature

/-! ### Source A: the paginated fetch of `get_arlington_events`

`requests.get` composed with a successful `r.json()` is modelled as
`api : Nat → Except Unit (ArlPage α)`, mapping the `From` offset of the
request URI to either the decoded page (`count` plus `items`) or a
request-level exception.  The embedding is instrumented to also return
the list of offsets of the GET requests that were issued, so that the
pagination contract can be stated. -/

structure ArlPage (α : Type) where
  count : Nat
  items : List α
deriving DecidableEq

/-- The `while from_param < count` loop of `get_arlington_events`
(src/events/arlington.py lines 43-61).  At offset 0 the items of the
already-fetched first response are consumed; at every later offset a new
GET request is issued whose failure is not caught.  Returns the
accumulated items together with the offsets of the requests issued
inside the loop. -/
def arlLoop (api : Nat → Except Unit (ArlPage α)) (count : Nat)
    (firstItems : List α) (fromParam : Nat) :
    Except Unit (List α × List Nat) :=
  if _h : fromParam < count then
    if fromParam = 0 then
      match arlLoop api count firstItems (fromParam + 5) with
      | .error e => .error e
      | .ok (rest, offs) => .ok (firstItems ++ rest, offs)
    else
      match api fromParam with
      | .error e => .error e
      | .ok page =>
        match arlLoop api count firstItems (fromParam + 5) with
        | .error e => .error e
        | .ok (rest, offs) => .ok (page.items ++ rest, fromParam :: offs)
  else
    .ok ([], [])
termination_by count - fromParam
decreasing_by all_goals omega

/-- `get_arlington_events` (src/events/arlington.py lines 14-63).
The first GET request is wrapped in `try/except` — an exception there is
logged and the function returns `None` (modelled `.ok none`).  Exceptions
of later requests propagate (modelled `.error`).  On success the result
carries the accumulated items and the offsets of all issued requests
(the initial request at offset 0 followed by the in-loop requests). -/
def get_arlington_events (api : Nat → Except Unit (ArlPage α)) :
    Except Unit (Option (List α × List Nat)) :=
  match api 0 with
  | .error _ => .ok none
  | .ok data =>
    match arlLoop api data.count data.items 0 with
    | .error e => .error e
    | .ok (items, offs) => .ok (some (items, 0 :: offs))

/-- A pure mocked API: every request succeeds, reports total `c` and
returns page `f n` at offset `n`. -/
def pureApi (c : Nat) (f : Nat → List α) : Nat → Except Unit (ArlPage α) :=
  fun n => .ok ⟨c, f n⟩

/-- Concrete mocked API whose request at offset 5 fails while the one at
offset 0 succeeds with `count = 12`. -/
def apiFailLater : Nat → Except Unit (ArlPage Nat) :=
  fun n => if n = 0 then .ok ⟨12, [7]⟩ else .error ()

/-! ### Python string primitives

The text-cleaning code of `arlington.py` runs on CPython strings; the
operations it uses are reproduced here on `List Char`. -/

/-- The ASCII part of Python's `str.strip()` whitespace set
(space, tab, newline, carriage return, vertical tab, form feed).  The
strings stripped by this code are ASCII-filtered or ASCII-typed, so the
non-ASCII whitespace code points never arise. -/
def pyWs (c : Char) : Bool :=
  c == ' ' || c == '\t' || c == '\n' || c == '\r' || c == Char.ofNat 11 || c == Char.ofNat 12

/-- Remove trailing whitespace (the right half of `str.strip()`). -/
def dropEndWs : List Char → List Char
  | [] => []
  | c :: t =>
    let r := dropEndWs t
    if r.isEmpty then (if pyWs c then [] else [c]) else c :: r

/-- Python `str.strip()`. -/
def pyStrip (l : List Char) : List Char := dropEndWs (l.dropWhile pyWs)

/-- Python substring containment `pat in s`. -/
def containsSub (pat : List Char) : List Char → Bool
  | [] => pat.isEmpty
  | c :: t => pat.isPrefixOf (c :: t) || containsSub pat t

/-- Python `pat in s` on `String`. -/
def containsStr (s pat : String) : Bool := containsSub pat.data s.data

/-- Python `s.replace(pat, rep)`: replaces occurrences left to right,
non-overlapping (scanning resumes after each replaced occurrence).
The fuel argument — always called with the input's length, every step
consuming at least one character — makes the recursion structural so
that the kernel can evaluate it; with enough fuel the exhaustion arm is
unreachable. -/
def pyReplaceF (pat rep : List Char) : Nat → List Char → List Char
  | 0, l => l
  | _ + 1, [] => []
  | fuel + 1, c :: t =>
    if pat ≠ [] ∧ pat.isPrefixOf (c :: t) then
      rep ++ pyReplaceF pat rep fuel (t.drop (pat.length - 1))
    else
      c :: pyReplaceF pat rep fuel t

def pyReplace (pat rep l : List Char) : List Char := pyReplaceF pat rep l.length l

/-- Python `re.sub('  +', rep, s)`: each maximal run of two or more
spaces is replaced by `rep` (the code uses `rep = ''` and `rep = ' '`).
Single spaces are untouched.  Fuel as in `pyReplaceF`. -/
def subRunsF (rep : List Char) : Nat → List Char → List Char
  | 0, l => l
  | _ + 1, [] => []
  | _ + 1, [c] => [c]
  | fuel + 1, c1 :: c2 :: t =>
    if c1 = ' ' ∧ c2 = ' ' then
      rep ++ subRunsF rep fuel (t.dropWhile (fun c => c == ' '))
    else
      c1 :: subRunsF rep fuel (c2 :: t)

def subRuns (rep l : List Char) : List Char := subRunsF rep l.length l

/-- Python `"".join(i for i in s if ord(i) < 128)` and equally
`s.encode('ascii', 'ignore').decode()`: drop non-ASCII characters. -/
def pyAsciiFilter (l : List Char) : List Char := l.filter (fun c => c.toNat < 128)

/-! ### BeautifulSoup text extraction, modelled

`html_textraction` feeds arbitrary strings (event names, descriptions,
venue names from the JSON API) to `BeautifulSoup(html, 'html.parser')`
and either concatenates the texts of the `<p>` elements or takes
`get_text()` of the whole fragment.  BeautifulSoup is an external
library; it is modelled here for the fragment shapes this data contains:
plain text (where `html.parser` treats a `<` not followed by a letter,
`/`, `!` or `?` as literal text) and non-nested, properly closed `<p>`
elements.  Comments and attribute values containing `>` are outside the
model. -/

/-- Skip past the `>` that closes the current markup (called with the
list positioned just after the `<`). -/
def skipTag (l : List Char) : List Char := (l.dropWhile (fun c => c != '>')).drop 1

/-- A `<` begins markup exactly when followed by a letter (start tag),
`/` (end tag), `!` (declaration) or `?` (processing instruction);
otherwise `html.parser` emits it as text. -/
def isTagOpener (c : Char) : Bool := c.isAlpha || c == '/' || c == '!' || c == '?'

/-- Whether the character after a `<` starts markup. -/
def headIsTagOpener (t : List Char) : Bool :=
  match t.head? with
  | some c2 => isTagOpener c2
  | none => false

/-- Model of `get_text()` on a fragment: markup is dropped, text kept
(a `<` that does not start markup — at the end, or followed by a
non-opener — is literal text).  Fuel as in `pyReplaceF`. -/
def stripTagsF : Nat → List Char → List Char
  | 0, l => l
  | _ + 1, [] => []
  | fuel + 1, c :: t =>
    if c = '<' ∧ headIsTagOpener t = true then stripTagsF fuel (skipTag t)
    else c :: stripTagsF fuel t

def stripTags (l : List Char) : List Char := stripTagsF l.length l

/-- Recognise the opening of a `<p>` element (case-insensitive tag name,
optionally followed by attributes). -/
def isPOpen : List Char → Bool
  | c :: p :: rest =>
    c == '<' && (p == 'p' || p == 'P') &&
      (match rest with
       | [] => true
       | c2 :: _ => !c2.isAlphanum)
  | _ => false

/-- Recognise the closing `</p>` of a `<p>` element. -/
def isPClose : List Char → Bool
  | c :: s :: p :: rest =>
    c == '<' && s == '/' && (p == 'p' || p == 'P') &&
      (match rest with
       | [] => true
       | c2 :: _ => !c2.isAlphanum)
  | _ => false

/-- Raw content of a `<p>` element up to its `</p>` (or the end of the
fragment, `html.parser` closing dangling elements at EOF), together with
the remainder after the closing tag.  Fuel as in `pyReplaceF`. -/
def pContentF : Nat → List Char → List Char × List Char
  | 0, l => ([], l)
  | _ + 1, [] => ([], [])
  | fuel + 1, c :: t =>
    if isPClose (c :: t) then ([], skipTag t)
    else
      ((pContentF fuel t).1.cons c, (pContentF fuel t).2)

def pContent (l : List Char) : List Char × List Char := pContentF l.length l

/-- The texts of the `<p>` elements of a fragment, in document order
(`soup.find_all('p')` followed by `get_text()` on each).  Fuel as in
`pyReplaceF`. -/
def findPSegsF : Nat → List Char → List (List Char)
  | 0, _ => []
  | _ + 1, [] => []
  | fuel + 1, c :: t =>
    if isPOpen (c :: t) then
      stripTags (pContent (skipTag t)).1 :: findPSegsF fuel (pContent (skipTag t)).2
    else
      findPSegsF fuel t

def findPSegs (l : List Char) : List (List Char) := findPSegsF l.length l

/-- `html_textraction` (src/events/arlington.py lines 83-109): empty
input yields the fallback literal; otherwise the texts of the `<p>`
elements not containing "Activity #" are concatenated (each followed by
a space) and stripped, or, with no `<p>` elements, the whole fragment's
text is stripped; finally runs of two or more spaces collapse to one. -/
def html_textraction (html : String) : String :=
  if html = "" then ⟨subRuns [' '] "See event website.".data⟩
  else if (findPSegs html.data).isEmpty then ⟨subRuns [' '] (pyStrip (stripTags html.data))⟩
  else
    ⟨subRuns [' '] (pyStrip ((findPSegs html.data).foldl
      (fun acc p => if containsSub "Activity #".data p then acc else acc ++ p ++ [' ']) []))⟩

/-- `parse_event_name` (src/events/arlington.py lines 112-146): names
mentioning "RIP", "RiP" or "Invasive Plant Removal" are rewritten to a
canonical "... Invasive Plant Removal" form (ASCII-filtered, double
space runs deleted, abbreviations and " - " separators removed, spaces
re-collapsed, stripped), then passed through `html_textraction`; other
names pass through `html_textraction` unchanged. -/
def parse_event_name (event_name : String) : String :=
  if containsStr event_name "RIP" || containsStr event_name "RiP" ||
      containsStr event_name "Invasive Plant Removal" then
    if containsStr event_name "Invasive Plant Removal" then
      html_textraction ⟨pyStrip (subRuns [' '] (pyReplace "RIP".data []
        (pyReplace " - ".data [] (pyReplace "RiP".data []
          (subRuns [] (pyAsciiFilter event_name.data))))))⟩
    else
      html_textraction ⟨pyStrip (subRuns [' '] (pyReplace " - ".data []
        (pyReplace "RIP".data [] (pyReplace "RiP".data []
          (subRuns [] (pyAsciiFilter event_name.data)))) ++ " Invasive Plant Removal".data))⟩
  else
    html_textraction event_name

/-! ### `schematize_date`: `datetime.strptime(s, "%Y-%m-%dT%H:%M:%S")`

CPython's `_strptime` compiles the format into a regex (matched
case-insensitively and anchored at the start, with any unconverted
trailing data raising `ValueError`).  The per-field patterns are
`%Y ↦ \d\d\d\d`, `%m ↦ 1[0-2]|0[1-9]|[1-9]`,
`%d ↦ 3[01]|[12]\d|0[1-9]|[1-9]`, `%H ↦ 2[0-3]|[0-1]\d|\d`,
`%M ↦ [0-5]\d|\d`, `%S ↦ 6[0-1]|[0-5]\d|\d`.  Each parser below tries
the alternatives in regex order and commits to the first match; this is
equivalent to the backtracking regex here because every field is
followed by a non-digit literal (or the end of the string), so a longer
alternative that matches can never need to be undone in favour of a
shorter one.  The parsed values are then passed to the `datetime`
constructor, which raises (caught by the code) unless the year is in
`1..9999`, the day fits the month, and hour/minute/second are within
their datetime bounds. -/

def isDig (c : Char) : Bool := 48 ≤ c.toNat && c.toNat ≤ 57

def dVal (c : Char) : Nat := c.toNat - 48

def pYear : List Char → Option (Nat × List Char)
  | a :: b :: c :: d :: rest =>
    if isDig a && isDig b && isDig c && isDig d then
      some (1000 * dVal a + 100 * dVal b + 10 * dVal c + dVal d, rest)
    else none
  | _ => none

def pMonth : List Char → Option (Nat × List Char)
  | a :: b :: rest =>
    if a.toNat = 49 ∧ 48 ≤ b.toNat ∧ b.toNat ≤ 50 then some (10 + dVal b, rest)
    else if a.toNat = 48 ∧ 49 ≤ b.toNat ∧ b.toNat ≤ 57 then some (dVal b, rest)
    else if 49 ≤ a.toNat ∧ a.toNat ≤ 57 then some (dVal a, b :: rest)
    else none
  | [a] => if 49 ≤ a.toNat ∧ a.toNat ≤ 57 then some (dVal a, []) else none
  | [] => none

def pDay : List Char → Option (Nat × List Char)
  | a :: b :: rest =>
    if a.toNat = 51 ∧ (b.toNat = 48 ∨ b.toNat = 49) then some (30 + dVal b, rest)
    else if (a.toNat = 49 ∨ a.toNat = 50) ∧ isDig b then some (10 * dVal a + dVal b, rest)
    else if a.toNat = 48 ∧ 49 ≤ b.toNat ∧ b.toNat ≤ 57 then some (dVal b, rest)
    else if 49 ≤ a.toNat ∧ a.toNat ≤ 57 then some (dVal a, b :: rest)
    else none
  | [a] => if 49 ≤ a.toNat ∧ a.toNat ≤ 57 then some (dVal a, []) else none
  | [] => none

def pHour : List Char → Option (Nat × List Char)
  | a :: b :: rest =>
    if a.toNat = 50 ∧ 48 ≤ b.toNat ∧ b.toNat ≤ 51 then some (20 + dVal b, rest)
    else if (a.toNat = 48 ∨ a.toNat = 49) ∧ isDig b then some (10 * dVal a + dVal b, rest)
    else if isDig a then some (dVal a, b :: rest)
    else none
  | [a] => if isDig a then some (dVal a, []) else none
  | [] => none

def pMinute : List Char → Option (Nat × List Char)
  | a :: b :: rest =>
    if 48 ≤ a.toNat ∧ a.toNat ≤ 53 ∧ isDig b then some (10 * dVal a + dVal b, rest)
    else if isDig a then some (dVal a, b :: rest)
    else none
  | [a] => if isDig a then some (dVal a, []) else none
  | [] => none

def pSecond : List Char → Option (Nat × List Char)
  | a :: b :: rest =>
    if a.toNat = 54 ∧ (b.toNat = 48 ∨ b.toNat = 49) then some (60 + dVal b, rest)
    else if 48 ≤ a.toNat ∧ a.toNat ≤ 53 ∧ isDig b then some (10 * dVal a + dVal b, rest)
    else if isDig a then some (dVal a, b :: rest)
    else none
  | [a] => if isDig a then some (dVal a, []) else none
  | [] => none

def expectChar (c : Char) : List Char → Option (List Char)
  | x :: rest => if x = c then some rest else none
  | [] => none

/-- The literal `T` of the format, matched case-insensitively because
`_strptime` compiles the whole format with `re.IGNORECASE`. -/
def expectT : List Char → Option (List Char)
  | x :: rest => if x = 'T' ∨ x = 't' then some rest else none
  | [] => none

def isLeap (y : Nat) : Bool := y % 4 = 0 && (y % 100 ≠ 0 || y % 400 = 0)

def daysInMonth (y m : Nat) : Nat :=
  if m = 2 then (if isLeap y then 29 else 28)
  else if m = 4 ∨ m = 6 ∨ m = 9 ∨ m = 11 then 30
  else 31

/-- `datetime.strptime(s, "%Y-%m-%dT%H:%M:%S")`: the field regexes in
sequence, a required end of input, then the `datetime` constructor's
range checks.  `none` models a raised `ValueError`. -/
def pyStrptimeYmdTHMS (l : List Char) : Option (Nat × Nat × Nat × Nat × Nat × Nat) :=
  match pYear l with
  | none => none
  | some (y, r1) =>
  match expectChar '-' r1 with
  | none => none
  | some r2 =>
  match pMonth r2 with
  | none => none
  | some (m, r3) =>
  match expectChar '-' r3 with
  | none => none
  | some r4 =>
  match pDay r4 with
  | none => none
  | some (d, r5) =>
  match expectT r5 with
  | none => none
  | some r6 =>
  match pHour r6 with
  | none => none
  | some (h, r7) =>
  match expectChar ':' r7 with
  | none => none
  | some r8 =>
  match pMinute r8 with
  | none => none
  | some (mi, r9) =>
  match expectChar ':' r9 with
  | none => none
  | some r10 =>
  match pSecond r10 with
  | none => none
  | some (se, r11) =>
  if r11 = [] then
    if 1 ≤ y ∧ y ≤ 9999 ∧ 1 ≤ m ∧ m ≤ 12 ∧ 1 ≤ d ∧ d ≤ daysInMonth y m ∧
        h ≤ 23 ∧ mi ≤ 59 ∧ se ≤ 59 then
      some (y, m, d, h, mi, se)
    else none
  else none

def digitChar (n : Nat) : Char := Char.ofNat (48 + n)

def pad2 (n : Nat) : List Char := [digitChar (n / 10 % 10), digitChar (n % 10)]

def pad4 (n : Nat) : List Char :=
  [digitChar (n / 1000 % 10), digitChar (n / 100 % 10), digitChar (n / 10 % 10),
   digitChar (n % 10)]

/-- `datetime.strftime(dt, "%Y-%m-%d")`, with `%Y` zero-padded to four
digits as the CPython documentation specifies. -/
def datePart (y m d : Nat) : List Char := pad4 y ++ '-' :: pad2 m ++ '-' :: pad2 d

/-- `schematize_date` (src/events/arlington.py lines 149-161): parse the
input in the fixed `%Y-%m-%dT%H:%M:%S` format and re-emit `%Y-%m-%d`;
a `ValueError` is caught and the empty string returned. -/
def schematize_date (s : String) : String :=
  match pyStrptimeYmdTHMS s.data with
  | none => ""
  | some (y, m, d, _, _, _) => ⟨datePart y m d⟩

/-- Following the spec's words, a string in "the exact format
`YYYY-MM-DDTHH:MM:SS`": nineteen characters, all-digit fields of fixed
widths separated by `-`, `-`, `T`, `:`, `:`. -/
def isExactYmdTHMS (s : String) : Bool :=
  match s.data with
  | [y1, y2, y3, y4, s1, m1, m2, s2, d1, d2, tc, h1, h2, c1, n1, n2, c2, e1, e2] =>
    isDig y1 && isDig y2 && isDig y3 && isDig y4 && s1 == '-' && isDig m1 && isDig m2 &&
    s2 == '-' && isDig d1 && isDig d2 && tc == 'T' && isDig h1 && isDig h2 && c1 == ':' &&
    isDig n1 && isDig n2 && c2 == ':' && isDig e1 && isDig e2
  | _ => false

/-- The zero-padded rendering of a timestamp in the exact
`YYYY-MM-DDTHH:MM:SS` format. -/
def tsYmdTHMS (y m d h mi se : Nat) : List Char :=
  datePart y m d ++ 'T' :: pad2 h ++ ':' :: pad2 mi ++ ':' :: pad2 se

/-- A list whose first character, if any, is not Python whitespace. -/
def headOk : List Char → Bool
  | [] => true
  | c :: _ => !pyWs c

/-- A list whose last character, if any, is not Python whitespace. -/
def lastOk : List Char → Bool
  | [] => true
  | [c] => !pyWs c
  | _ :: t => lastOk t

/-! ### `schematize_events`: the source A normaliser -/

/-- Python `''.join(s for s in desc if s.isdigit())` on the ASCII
digits that cost descriptions contain. -/
def pyDigits (s : String) : String := ⟨s.data.filter Char.isDigit⟩

/-- The fields of `item['vwEventWithLocation']` that `schematize_events`
and `get_event_website` read.  Python `None` and `''` are both falsy for
the fields tested with `if not ...`; both are modelled as the empty
string. -/
structure ArlEvent where
  eventName : String
  eventDsc : String
  eventStartDate : String
  eventEndDate : String
  eventStartTime : String
  eventEndTime : String
  eventUrlText : String
  freeOfChargeInd : Bool
  eventCostDsc : String
  locationName : String
deriving DecidableEq

/-- An event record in the canonical output schema — the dict literal of
src/events/arlington.py lines 200-213.  `eventWebsite` is an `Option`
because the website-backfill lookup can return Python `None`. -/
structure SchemaEvent where
  eventStartDate : String
  eventEndDate : String
  eventStartTime : String
  eventEndTime : String
  eventWebsite : Option String
  eventName : String
  eventVenueName : String
  eventCost : String
  eventDescription : String
  timezone : String
  eventOrganizers : String
  eventCurrencySymbol : String
  allDayEvent : Bool
  eventCategory : String
deriving DecidableEq

/-- `get_event_website` (src/events/arlington.py lines 66-80): a search
request filtered by event name (the HTTP call is modelled as
`searchApi`), scanning the returned items in order for one whose
schematised start and end dates both match, and returning its website
field; `none` models the Python `None` returned when no item matches. -/
def gewScan (start_date end_date : String) : List ArlEvent → Option String
  | [] => none
  | item :: rest =>
    if schematize_date item.eventStartDate = start_date ∧
        schematize_date item.eventEndDate = end_date then
      some item.eventUrlText
    else
      gewScan start_date end_date rest

def get_event_website (searchApi : String → List ArlEvent)
    (event_name start_date end_date : String) : Option String :=
  gewScan start_date end_date (searchApi event_name)

/-- The name-based `continue` guard (src/events/arlington.py line 179). -/
def arlNameExcluded (item : ArlEvent) : Bool :=
  containsStr (parse_event_name item.eventName) "Task Force" ||
  containsStr (parse_event_name item.eventName) "Forestry Commission"

/-- The venue-based `continue` guard (src/events/arlington.py line 195). -/
def arlVenueExcluded (item : ArlEvent) : Bool :=
  html_textraction item.locationName = "Earth Products Yard" ||
  containsStr (html_textraction item.locationName) "Library" ||
  html_textraction item.locationName = ""

/-- `schematize_events` (src/events/arlington.py lines 164-216): per
item, names containing "Task Force" or "Forestry Commission" are
skipped; venues equal to "Earth Products Yard", containing "Library", or
empty are skipped; otherwise a canonical record is emitted, with the
cost rule free → "0", else digits of the cost description, else "", and
the website backfilled through `get_event_website` when absent. -/
def schematize_events (searchApi : String → List ArlEvent) :
    List ArlEvent → List SchemaEvent
  | [] => []
  | item :: rest =>
    if arlNameExcluded item then
      schematize_events searchApi rest
    else if arlVenueExcluded item then
      schematize_events searchApi rest
    else
      { eventStartDate := schematize_date item.eventStartDate
        eventEndDate := schematize_date item.eventEndDate
        eventStartTime := item.eventStartTime
        eventEndTime := item.eventEndTime
        eventWebsite :=
          if item.eventUrlText ≠ "" then some item.eventUrlText
          else get_event_website searchApi (parse_event_name item.eventName)
            (schematize_date item.eventStartDate) (schematize_date item.eventEndDate)
        eventName := parse_event_name item.eventName
        eventVenueName :=
          if html_textraction item.locationName ≠ "" then html_textraction item.locationName
          else "See event website"
        eventCost :=
          if item.freeOfChargeInd then "0"
          else if item.eventCostDsc ≠ "" then pyDigits item.eventCostDsc
          else ""
        eventDescription := html_textraction item.eventDsc
        timezone := "America/New_York"
        eventOrganizers := "Arlington Parks"
        eventCurrencySymbol := "$"
        allDayEvent := false
        eventCategory := "" } :: schematize_events searchApi rest

/-- A mocked search API returning no items. -/
def arlApiEmpty : String → List ArlEvent := fun _ => []

/-- A free event at a non-filtered venue. -/
def arlItemFree : ArlEvent :=
  { eventName := "Bird Walk", eventDsc := "Fun", eventStartDate := "2019-01-25T00:00:00",
    eventEndDate := "2019-01-25T00:00:00", eventStartTime := "10:00", eventEndTime := "11:00",
    eventUrlText := "http://example.org", freeOfChargeInd := true, eventCostDsc := "",
    locationName := "Gulf Branch Nature Center" }

/-- The record `schematize_events` emits for `arlItemFree`. -/
def arlFreeRecord : SchemaEvent :=
  { eventStartDate := "2019-01-25", eventEndDate := "2019-01-25", eventStartTime := "10:00",
    eventEndTime := "11:00", eventWebsite := some "http://example.org",
    eventName := "Bird Walk", eventVenueName := "Gulf Branch Nature Center",
    eventCost := "0", eventDescription := "Fun", timezone := "America/New_York",
    eventOrganizers := "Arlington Parks", eventCurrencySymbol := "$", allDayEvent := false,
    eventCategory := "" }

/-- An item whose venue is "Arlington Central Library". -/
def arlLibraryItem : ArlEvent :=
  { eventName := "Storytime", eventDsc := "Stories", eventStartDate := "2019-01-25T00:00:00",
    eventEndDate := "2019-01-25T00:00:00", eventStartTime := "10:00", eventEndTime := "11:00",
    eventUrlText := "http://example.org", freeOfChargeInd := true, eventCostDsc := "",
    locationName := "Arlington Central Library" }

/-! ### Source B: the PATC calendar crawler (`patc.py`)

`make_request_content` fetches a page and parses it with BeautifulSoup;
the fetched, parsed document is modelled directly as a node tree
(`fetch : String → PNode`), sidestepping the HTML string parsing, which
`patc.py` never performs itself. -/

/-- A parsed HTML node as BeautifulSoup exposes it to `patc.py`: an
element with a tag name, an optional `href` attribute and children, or a
`NavigableString` (which Python treats as a `str`). -/
inductive PNode where
  | text (s : String)
  | elem (tag : String) (href : Option String) (children : List PNode)

mutual

/-- `node.getText()`: the concatenated descendant strings. -/
def nodeText : PNode → String
  | .text s => s
  | .elem _ _ cs => nodeTextList cs

def nodeTextList : List PNode → String
  | [] => ""
  | c :: cs => nodeText c ++ nodeTextList cs

end

mutual

/-- The matching elements among a node's descendants, document order. -/
def findAllNode (tag : String) : PNode → List PNode
  | .text _ => []
  | .elem t h cs => (if t = tag then [PNode.elem t h cs] else []) ++ findAllList tag cs

def findAllList (tag : String) : List PNode → List PNode
  | [] => []
  | c :: cs => findAllNode tag c ++ findAllList tag cs

end

/-- `soup.findAll(tag)`: matching descendants of the root (the root
itself is never reported). -/
def findAll (tag : String) : PNode → List PNode
  | .text _ => []
  | .elem _ _ cs => findAllList tag cs

/-- `tag.children`: the direct children. -/
def childrenOf : PNode → List PNode
  | .text _ => []
  | .elem _ _ cs => cs

/-- `tag.attrs.get("href")`. -/
def hrefOf : PNode → Option String
  | .text _ => none
  | .elem _ h _ => h

/-- `more_itertools.one`: the sole element, or a raised `ValueError`
when the iterable has zero or more than one element. -/
def exactlyOne : List α → Except Unit α
  | [x] => .ok x
  | _ => .error ()

/-- `more_itertools.last`: the final element, or a raised `ValueError`
on an empty iterable. -/
def lastElem (l : List α) : Except Unit α :=
  match l.getLast? with
  | some x => .ok x
  | none => .error ()

/-- Scan a reversed character list up to the first colon; `none` when no
colon occurs. -/
def afterLastColonRev : List Char → Option (List Char)
  | [] => none
  | c :: t => if c = ':' then some t else afterLastColonRev t

/-- `s.rpartition(":")[0]`: everything before the last colon, or the
empty string when the string has no colon. -/
def rpartBeforeColon (s : String) : String :=
  match afterLastColonRev s.data.reverse with
  | some revPre => ⟨revPre.reverse⟩
  | none => ""

def KEYWORDS : List String := ["Start Time", "Start Date", "Event Category", "www"]

/-- Python dict assignment `d[k] = v`: overwrite the existing entry in
place, or append a new one (dicts preserve insertion order). -/
def setCol (r : List (String × α)) (k : String) (v : α) : List (String × α) :=
  match r with
  | [] => [(k, v)]
  | (k2, v2) :: rest => if k2 = k then (k, v) :: rest else (k2, v2) :: setCol rest k v

/-- Dict lookup `d[k]` as an `Option`. -/
def rowGet (r : List (String × α)) (k : String) : Option α :=
  match r with
  | [] => none
  | (k2, v2) :: rest => if k2 = k then some v2 else rowGet rest k

/-- The `any([word + ":" in para.getText() for word in KEYWORDS])`
guard of the paragraph loop. -/
def kwMatch (para : PNode) : Bool :=
  KEYWORDS.any (fun w => containsStr (nodeText para) (w ++ ":"))

/-- One iteration of the `for para in res.findAll("p")` loop of
`find_event_data` (src/events/patc.py lines 72-88): on a keyword match,
`mi.one` demands exactly one `<strong>` (else `ValueError`), the value
is the last child (`mi.last`, `ValueError` on none), for the `www`
category the single `<a>`'s `href` is taken instead (a missing `href`
raises `AttributeError` on `None.getText()`), and the ASCII-filtered,
stripped value is stored under the label text before its last colon. -/
def processPara (acc : List (String × String)) (para : PNode) :
    Except Unit (List (String × String)) :=
  if kwMatch para then
    match exactlyOne (findAll "strong" para) with
    | .error e => .error e
    | .ok header =>
      match lastElem (childrenOf para) with
      | .error e => .error e
      | .ok valNode =>
        if rpartBeforeColon (nodeText header) = "www" then
          match exactlyOne (findAll "a" para) with
          | .error e => .error e
          | .ok aTag =>
            match hrefOf aTag with
            | none => .error ()
            | some href =>
              .ok (setCol acc (rpartBeforeColon (nodeText header))
                ⟨pyStrip (pyAsciiFilter href.data)⟩)
        else
          .ok (setCol acc (rpartBeforeColon (nodeText header))
            ⟨pyStrip (pyAsciiFilter (nodeText valNode).data)⟩)
  else
    .ok acc

def processParas (acc : List (String × String)) :
    List PNode → Except Unit (List (String × String))
  | [] => .ok acc
  | p :: ps =>
    match processPara acc p with
    | .error e => .error e
    | .ok acc2 => processParas acc2 ps

/-- `find_event_data` (src/events/patc.py lines 49-90): the event name
is the last `<th>`'s text and the fallback description the last `<p>`'s
text — an `IndexError` from either (no `<th>` or no `<p>`) is caught and
`None` returned (`.ok none`); the paragraph loop's exceptions are not
caught and propagate (`.error`). -/
def find_event_data (doc : PNode) : Except Unit (Option (List (String × String))) :=
  match (findAll "th" doc).getLast?, (findAll "p" doc).getLast? with
  | some th, some pl =>
    match processParas
      [("Event Name", ⟨pyStrip (nodeText th).data⟩),
       ("Description", ⟨pyStrip (nodeText pl).data⟩)]
      (findAll "p" doc) with
    | .error e => .error e
    | .ok r => .ok (some r)
  | _, _ => .ok none

/-- `posixpath.split(link)[-1]`: the component after the last slash. -/
def splitTail (s : String) : String :=
  ⟨(s.data.reverse.takeWhile (fun c => c != '/')).reverse⟩

/-- `posixpath.join(a, b)` for a non-empty, slash-free `a`. -/
def pjoin (a b : String) : String :=
  if b.data.head? = some '/' then b else a ++ "/" ++ b

/-- The anchor loop of `main` (src/events/patc.py lines 125-135): every
anchor whose `href` (defaulted to "") contains "calendar.aspx" leads to
a detail-page fetch; `find_event_data` returning `None` (or a falsy
empty dict) is skipped, its uncaught exceptions propagate. -/
def crawlGo (fetch : String → PNode) :
    List PNode → Except Unit (List (List (String × String)))
  | [] => .ok []
  | aTag :: rest =>
    if containsStr ((hrefOf aTag).getD "") "calendar.aspx" then
      match find_event_data (fetch (pjoin "Custom" (splitTail ((hrefOf aTag).getD "")))) with
      | .error e => .error e
      | .ok none => crawlGo fetch rest
      | .ok (some r) =>
        if r.isEmpty then crawlGo fetch rest
        else
          match crawlGo fetch rest with
          | .error e => .error e
          | .ok rs => .ok (r :: rs)
    else crawlGo fetch rest

def patcRecords (index : PNode) (fetch : String → PNode) :
    Except Unit (List (List (String × String))) :=
  crawlGo fetch (findAll "a" index)

/-- The detail-page documents the crawl visits, in order. -/
def crawlDocs (index : PNode) (fetch : String → PNode) : List PNode :=
  ((findAll "a" index).filter
      (fun aTag => containsStr ((hrefOf aTag).getD "") "calendar.aspx")).map
    (fun aTag => fetch (pjoin "Custom" (splitTail ((hrefOf aTag).getD ""))))

/-- The crawl loop expressed over the visited documents. -/
def docsGo : List PNode → Except Unit (List (List (String × String)))
  | [] => .ok []
  | d :: ds =>
    match find_event_data d with
    | .error e => .error e
    | .ok none => docsGo ds
    | .ok (some r) =>
      if r.isEmpty then docsGo ds
      else
        match docsGo ds with
        | .error e => .error e
        | .ok rs => .ok (r :: rs)

/-- A pandas cell value as this pipeline produces it: a string, the
boolean and integer constants of `assign`, or a `datetime.date`
(carried as its ISO rendering). -/
inductive PVal where
  | str (s : String)
  | pbool (b : Bool)
  | pnat (n : Nat)
  | pdate (d : String)
deriving DecidableEq

/-- The result of `dateutil.parser.parse` (an external, permissive
parser, abstracted as a function parameter): a datetime exposing its
`.date()` ISO rendering and its `strftime("%H:%M:%S")` rendering. -/
structure PyDT where
  dateStr : String
  hmsStr : String
deriving DecidableEq

/-- `pd.DataFrame.from_records`: each dict becomes a row. -/
def toPValRow (r : List (String × String)) : List (String × PVal) :=
  r.map (fun p => (p.1, PVal.str p.2))

/-- The `assign` call of `main` (src/events/patc.py lines 139-147):
seven constant columns, broadcast to every row, overwriting any
same-named column. -/
def assignDefaults (r : List (String × PVal)) : List (String × PVal) :=
  setCol (setCol (setCol (setCol (setCol (setCol (setCol r
    "all_day_event" (.pbool false))
    "time_zone" (.str "America/New_York"))
    "end_time" (.str "23:59:59"))
    "event_cost" (.pnat 0))
    "currency" (.str "$"))
    "venue" (.str "Please refer to website"))
    "event_organizers" (.str "Potomac Appalachian Trail Club")

/-- A pandas column exists when some record supplied the key (an absent
column raises `KeyError`; in particular an empty frame has none). -/
def colExists (df : List (List (String × PVal))) (c : String) : Bool :=
  df.any (fun r => (rowGet r c).isSome)

/-- The per-row effect of `format_df_time_columns`
(src/events/patc.py lines 106-118): `start_date` and `end_date` are both
the parsed date of the row's "Start Date" string, `start_time` the
parsed "Start Time" rendered `%H:%M:%S`; a missing value (pandas `NaN`)
or a parse failure raises (`none`). -/
def fmtRow (duParse : String → Option PyDT) (r : List (String × PVal)) :
    Option (List (String × PVal)) :=
  match rowGet r "Start Date" with
  | some (.str sd) =>
    match duParse sd with
    | some dtd =>
      match rowGet r "Start Time" with
      | some (.str st) =>
        match duParse st with
        | some dtt =>
          some (setCol (setCol (setCol r
            "start_date" (.pdate dtd.dateStr))
            "start_time" (.str dtt.hmsStr))
            "end_date" (.pdate dtd.dateStr))
        | none => none
      | _ => none
    | none => none
  | _ => none

def mapOptM (f : α → Option β) : List α → Option (List β)
  | [] => some []
  | x :: xs =>
    match f x, mapOptM f xs with
    | some y, some ys => some (y :: ys)
    | _, _ => none

def format_df_time_columns (duParse : String → Option PyDT)
    (df : List (List (String × PVal))) : Option (List (List (String × PVal))) :=
  if colExists df "Start Date" ∧ colExists df "Start Time" then
    mapOptM (fmtRow duParse) df
  else none

/-- `.drop(["Start Date", "Start Time"], axis=1)`. -/
def dropCols (r : List (String × PVal)) : List (String × PVal) :=
  r.filter (fun p => p.1 ≠ "Start Date" ∧ p.1 ≠ "Start Time")

/-- The `RENAME_MAP` dict of src/events/patc.py lines 14-27 as a key
translation. -/
def renameKey (k : String) : String :=
  if k = "all_day_event" then "All Day Event"
  else if k = "currency" then "Event Currency Symbol"
  else if k = "Description" then "Event Description"
  else if k = "end_date" then "Event End Date"
  else if k = "end_time" then "Event End Time"
  else if k = "event_cost" then "Event Cost"
  else if k = "event_organizers" then "Event Organizers"
  else if k = "start_date" then "Event Start Date"
  else if k = "start_time" then "Event Start Time"
  else if k = "time_zone" then "Timezone"
  else if k = "venue" then "Event Venue Name"
  else if k = "www" then "Event Website"
  else k

def renameRow (r : List (String × PVal)) : List (String × PVal) :=
  r.map (fun p => (renameKey p.1, p.2))

/-- `main` (src/events/patc.py lines 121-152): crawl, build the frame,
assign the seven defaults, pipe through `format_df_time_columns`, drop
the raw columns and rename into the canonical schema.  A raised
exception anywhere — crawl or frame stage — propagates (`.error`). -/
def patcMain (index : PNode) (fetch : String → PNode) (duParse : String → Option PyDT) :
    Except Unit (List (List (String × PVal))) :=
  match patcRecords index fetch with
  | .error e => .error e
  | .ok recs =>
    match format_df_time_columns duParse ((recs.map toPValRow).map assignDefaults) with
    | none => .error ()
    | some df2 => .ok (df2.map (fun r => renameRow (dropCols r)))

/-- An extracted record usable by the frame stage: non-empty (Python
dict truthiness) with "Start Date" and "Start Time" values the
date parser accepts. -/
def goodRow (duParse : String → Option PyDT) (r : List (String × String)) : Bool :=
  !r.isEmpty &&
  (match rowGet r "Start Date" with
   | some s => (duParse s).isSome
   | none => false) &&
  (match rowGet r "Start Time" with
   | some s => (duParse s).isSome
   | none => false)

/-- A detail page whose extraction succeeds with a usable record. -/
def goodDoc (duParse : String → Option PyDT) (d : PNode) : Bool :=
  match find_event_data d with
  | .ok (some r) => goodRow duParse r
  | _ => false

/-- A well-formed detail page: one `<th>` (the event name), a keyword
paragraph each for "Start Date" and "Start Time", and a description
paragraph. -/
def goodPage : PNode :=
  PNode.elem "html" none [
    PNode.elem "th" none [PNode.text "Vigorous Hike"],
    PNode.elem "p" none [PNode.elem "strong" none [PNode.text "Start Date:"],
      PNode.text " 2019-01-25"],
    PNode.elem "p" none [PNode.elem "strong" none [PNode.text "Start Time:"],
      PNode.text " 10:00 AM"],
    PNode.elem "p" none [PNode.text "A pleasant walk."]]

/-- `goodPage` with a second `<strong>` inside its "Start Date"
paragraph — the ambiguous-label case. -/
def ambigPage : PNode :=
  PNode.elem "html" none [
    PNode.elem "th" none [PNode.text "Vigorous Hike"],
    PNode.elem "p" none [PNode.elem "strong" none [PNode.text "Start Date:"],
      PNode.elem "strong" none [PNode.text "extra"], PNode.text " 2019-01-25"],
    PNode.elem "p" none [PNode.elem "strong" none [PNode.text "Start Time:"],
      PNode.text " 10:00 AM"],
    PNode.elem "p" none [PNode.text "A pleasant walk."]]

/-- A detail page with no `<th>` element (extraction raises
`IndexError`, caught, `None` returned). -/
def badPage : PNode := PNode.elem "html" none [PNode.text "broken"]

/-- An index page linking one good and one bad detail page (plus an
anchor without a calendar link). -/
def patcIndexPair : PNode :=
  PNode.elem "html" none [
    PNode.elem "a" (some "Custom/calendar.aspx?id=1") [],
    PNode.elem "a" (some "calendar.aspx?id=2") [],
    PNode.elem "a" none [PNode.text "skip"]]

/-- An index page linking a single (bad) detail page. -/
def patcIndexSolo : PNode :=
  PNode.elem "html" none [PNode.elem "a" (some "calendar.aspx?one") []]

def patcFetchPair : String → PNode :=
  fun s => if s = "Custom/calendar.aspx?id=1" then goodPage else badPage

/-- A concrete stand-in for `dateutil.parser.parse` covering the inputs
of the witnesses. -/
def toyParse : String → Option PyDT := fun s =>
  if s = "2019-01-25" then some ⟨"2019-01-25", "00:00:00"⟩
  else if s = "10:00 AM" then some ⟨"2019-01-25", "10:00:00"⟩
  else none

/-- The column names `assign` writes. -/
def assignKeys : List String :=
  ["all_day_event", "time_zone", "end_time", "event_cost", "currency", "venue",
   "event_organizers"]

/-! ### C9 and C10: the canonical columns of `main`'s output -/

/-- The columns written by the frame stage itself (`assign` and
`format_df_time_columns`), as opposed to extracted ones. -/
def pipelineKeys : List String :=
  "start_date" :: "start_time" :: "end_date" :: assignKeys

/-- The `RENAME_MAP` of `patc.py` as a pair list. -/
def renamePairs : List (String × String) :=
  [("all_day_event", "All Day Event"), ("currency", "Event Currency Symbol"),
   ("Description", "Event Description"), ("end_date", "Event End Date"),
   ("end_time", "Event End Time"), ("event_cost", "Event Cost"),
   ("event_organizers", "Event Organizers"), ("start_date", "Event Start Date"),
   ("start_time", "Event Start Time"), ("time_zone", "Timezone"),
   ("venue", "Event Venue Name"), ("www", "Event Website")]

/-- The canonical column names `RENAME_MAP` maps onto. -/
def renameTargets : List String :=
  ["All Day Event", "Event Currency Symbol", "Event Description", "Event End Date",
   "Event End Time", "Event Cost", "Event Organizers", "Event Start Date",
   "Event Start Time", "Timezone", "Event Venue Name", "Event Website"]

/-- The single record the pair crawl extracts from `goodPage`. -/
def patcGoodRec : List (String × String) :=
  [("Event Name", "Vigorous Hike"), ("Description", "A pleasant walk."),
   ("Start Date", "2019-01-25"), ("Start Time", "10:00 AM")]

/-- The canonical row `main` emits for `patcGoodRec` under `toyParse`. -/
def patcCanonRow : List (String × PVal) :=
  [("Event Name", .str "Vigorous Hike"), ("Event Description", .str "A pleasant walk."),
   ("All Day Event", .pbool false), ("Timezone", .str "America/New_York"),
   ("Event End Time", .str "23:59:59"), ("Event Cost", .pnat 0),
   ("Event Currency Symbol", .str "$"), ("Event Venue Name", .str "Please refer to website"),
   ("Event Organizers", .str "Potomac Appalachian Trail Club"),
   ("Event Start Date", .pdate "2019-01-25"), ("Event Start Time", .str "10:00:00"),
   ("Event End Date", .pdate "2019-01-25")]

theorem range_succ_map (g : Nat → β) (n : Nat) :
    (List.range (n + 1)).map g = g 0 :: (List.range n).map (fun k => g (k + 1)) := by
  rw [List.range_succ_eq_map, List.map_cons, List.map_map]
  rfl

theorem arlLoop_stop (api : Nat → Except Unit (ArlPage α)) (count : Nat)
    (fi : List α) (s : Nat) (h : count ≤ s) :
    arlLoop api count fi s = .ok ([], []) := by
  rw [arlLoop]
  simp [Nat.not_lt.mpr h]

theorem arlLoop_pure (c : Nat) (f : Nat → List α) (fi : List α) :
    ∀ (fuel t : Nat), c - 5 * t ≤ fuel → 1 ≤ t →
      arlLoop (pureApi c f) c fi (5 * t) =
        .ok (((List.range ((c - 5 * t + 4) / 5)).map (fun k => f (5 * (t + k)))).flatten,
             (List.range ((c - 5 * t + 4) / 5)).map (fun k => 5 * (t + k))) := by
  intro fuel
  induction fuel with
  | zero =>
    intro t hf _ht
    rw [arlLoop_stop _ _ _ _ (by omega)]
    have h0 : (c - 5 * t + 4) / 5 = 0 := by omega
    simp [h0]
  | succ n ihn =>
    intro t hf ht
    by_cases hlt : 5 * t < c
    · rw [arlLoop, dif_pos hlt, if_neg (by omega : ¬ (5 * t = 0))]
      have h5 : 5 * t + 5 = 5 * (t + 1) := by omega
      rw [h5, ihn (t + 1) (by omega) (by omega)]
      simp only [pureApi]
      have hn : (c - 5 * t + 4) / 5 = ((c - 5 * (t + 1) + 4) / 5) + 1 := by omega
      rw [hn, range_succ_map (fun k => f (5 * (t + k))),
        range_succ_map (fun k => 5 * (t + k))]
      have hf1 : (fun k => f (5 * (t + (k + 1)))) = (fun k => f (5 * (t + 1 + k))) := by
        funext k
        congr 1
        omega
      have hf2 : (fun k => 5 * (t + (k + 1))) = (fun k => 5 * (t + 1 + k)) := by
        funext k
        omega
      rw [hf1, hf2]
      simp
    · rw [arlLoop_stop _ _ _ _ (by omega)]
      have h0 : (c - 5 * t + 4) / 5 = 0 := by omega
      simp [h0]

/-- **C1.** For every server-reported total count `c ≥ 1` and any pure
mocked API serving pages `f n`, `get_arlington_events` issues GET
requests exactly at the offsets `0, 5, 10, …` up to (excluding) `c` —
that is, `⌈c/5⌉` requests at offsets `5*k` for `k < ⌈c/5⌉` — and returns
the pages' items concatenated in request order. -/
theorem c1_pagination (α : Type) (c : Nat) (f : Nat → List α) (h : 1 ≤ c) :
    get_arlington_events (pureApi c f) =
      .ok (some ((((List.range ((c + 4) / 5)).map (fun k => f (5 * k))).flatten,
                  (List.range ((c + 4) / 5)).map (fun k => 5 * k)))) := by
  unfold get_arlington_events
  simp only [pureApi]
  rw [arlLoop, dif_pos (by omega : (0:Nat) < c), if_pos rfl]
  have h05 : (0:Nat) + 5 = 5 * 1 := by norm_num
  rw [h05, arlLoop_pure c f (f 0) (c - 5 * 1) 1 (by omega) le_rfl]
  have hn : (c + 4) / 5 = ((c - 5 * 1 + 4) / 5) + 1 := by omega
  rw [hn, range_succ_map (fun k => f (5 * k)), range_succ_map (fun k => 5 * k)]
  have hf1 : (fun k => f (5 * (k + 1))) = (fun k => f (5 * (1 + k))) := by
    funext k
    congr 1
    omega
  have hf2 : (fun k => 5 * (k + 1)) = (fun k => 5 * (1 + k)) := by
    funext k
    omega
  rw [hf1, hf2]
  simp

/-- Witness for C1: a mocked API reporting `count = 12` in pages of 5
issues exactly 3 requests, at offsets 0, 5 and 10, and concatenates the
three pages in order. -/
theorem c1_pagination_witness :
    get_arlington_events (pureApi 12 (fun n => [n])) =
      .ok (some ([0, 5, 10], [0, 5, 10])) :=
  (c1_pagination Nat 12 (fun n => [n]) (by decide)).trans (by rfl)

theorem arlLoop_propagates (api : Nat → Except Unit (ArlPage α)) (c : Nat)
    (fi : List α) (j : Nat) (hjc : 5 * j < c)
    (hfail : api (5 * j) = .error ())
    (hok : ∀ i, 1 ≤ i → i < j → (api (5 * i)).isOk = true) :
    ∀ (fuel t : Nat), j - t ≤ fuel → 1 ≤ t → t ≤ j →
      arlLoop api c fi (5 * t) = .error () := by
  intro fuel
  induction fuel with
  | zero =>
    intro t hf h1 h2
    have htj : t = j := by omega
    subst htj
    rw [arlLoop, dif_pos (by omega), if_neg (by omega), hfail]
  | succ n ihn =>
    intro t hf h1 h2
    by_cases htj : t = j
    · subst htj
      rw [arlLoop, dif_pos (by omega), if_neg (by omega), hfail]
    · have hiok := hok t h1 (by omega)
      cases hapi : api (5 * t) with
      | error e =>
        rw [hapi] at hiok
        simp [Except.isOk, Except.toBool] at hiok
      | ok page =>
        rw [arlLoop, dif_pos (by omega), if_neg (by omega), hapi]
        have h5 : 5 * t + 5 = 5 * (t + 1) := by omega
        rw [h5, ihn (t + 1) (by omega) (by omega) (by omega)]

/-- **C3.** Failure policy of `get_arlington_events`: an exception on the
first GET request (offset 0) is caught — the function returns `None`
(`.ok none`), so the caller observes no events; an exception on any
subsequent request of the pagination loop (the first failing offset
`5*j`, all earlier loop requests succeeding) is not caught and
propagates out of the function (`.error`). -/
theorem c3_error_policy :
    (∀ (α : Type) (api : Nat → Except Unit (ArlPage α)),
        api 0 = .error () → get_arlington_events api = .ok none)
    ∧
    (∀ (α : Type) (api : Nat → Except Unit (ArlPage α)) (c : Nat) (its : List α) (j : Nat),
        api 0 = .ok ⟨c, its⟩ → 1 ≤ j → 5 * j < c →
        (∀ i, 1 ≤ i → i < j → (api (5 * i)).isOk = true) →
        api (5 * j) = .error () →
        get_arlington_events api = .error ()) := by
  constructor
  · intro α api h
    unfold get_arlington_events
    rw [h]
  · intro α api c its j h0 hj hjc hok hfail
    have hloop : arlLoop api c its 0 = .error () := by
      rw [arlLoop, dif_pos (by omega : (0:Nat) < c), if_pos rfl]
      have h05 : (0:Nat) + 5 = 5 * 1 := by norm_num
      rw [h05, arlLoop_propagates api c its j hjc hfail hok (j - 1) 1 (by omega) le_rfl hj]
    unfold get_arlington_events
    rw [h0]
    simp [hloop]

/-- Witness for C3: a first-request failure yields `.ok none` (Python
`None`, caught and logged); a failure at offset 5 after a successful
first request reporting `count = 12` propagates as `.error`. -/
theorem c3_error_policy_witness :
    get_arlington_events (fun _ => (.error () : Except Unit (ArlPage Nat))) = .ok none
    ∧ get_arlington_events apiFailLater = .error () :=
  ⟨c3_error_policy.1 Nat _ rfl,
   c3_error_policy.2 Nat apiFailLater 12 [7] 1 rfl (by decide) (by decide)
     (fun i h1 h2 => absurd h2 (by omega)) rfl⟩

theorem length_dropWhile_le (p : α → Bool) (l : List α) :
    (l.dropWhile p).length ≤ l.length :=
  (List.dropWhile_suffix p).sublist.length_le

theorem skipTag_length_le (l : List Char) : (skipTag l).length ≤ l.length := by
  have := length_dropWhile_le (fun c => c != '>') l
  simp [skipTag, List.length_drop]
  omega

theorem pContentF_rem_length (fuel : Nat) (l : List Char) :
    (pContentF fuel l).2.length ≤ l.length := by
  induction fuel generalizing l with
  | zero => cases l <;> simp [pContentF]
  | succ n ih =>
    cases l with
    | nil => simp [pContentF]
    | cons c t =>
      rw [pContentF]
      by_cases h : isPClose (c :: t) = true
      · simp only [h, if_pos]
        have := skipTag_length_le t
        simp
        omega
      · simp only [h]
        simp
        have := ih t
        omega

theorem digitChar_toNat (k : Nat) (hk : k < 10) : (digitChar k).toNat = 48 + k := by
  interval_cases k <;> rfl

theorem isDig_digitChar (k : Nat) (hk : k < 10) : isDig (digitChar k) = true := by
  interval_cases k <;> rfl

theorem pYear_pad4 (y : Nat) (hy : y ≤ 9999) (r : List Char) :
    pYear (pad4 y ++ r) = some (y, r) := by
  have h1 : y / 1000 % 10 < 10 := Nat.mod_lt _ (by norm_num)
  have h2 : y / 100 % 10 < 10 := Nat.mod_lt _ (by norm_num)
  have h3 : y / 10 % 10 < 10 := Nat.mod_lt _ (by norm_num)
  have h4 : y % 10 < 10 := Nat.mod_lt _ (by norm_num)
  simp only [pad4, List.cons_append, List.nil_append, pYear, isDig_digitChar _ h1,
    isDig_digitChar _ h2, isDig_digitChar _ h3, isDig_digitChar _ h4, Bool.and_self,
    if_pos, dVal, digitChar_toNat _ h1, digitChar_toNat _ h2, digitChar_toNat _ h3,
    digitChar_toNat _ h4, Option.some.injEq, Prod.mk.injEq]
  exact ⟨by omega, trivial⟩

theorem pMonth_pad2 (m : Nat) (h1 : 1 ≤ m) (h2 : m ≤ 12) (r : List Char) :
    pMonth (pad2 m ++ r) = some (m, r) := by
  interval_cases m <;> rfl

theorem pDay_pad2 (d : Nat) (h1 : 1 ≤ d) (h2 : d ≤ 31) (r : List Char) :
    pDay (pad2 d ++ r) = some (d, r) := by
  interval_cases d <;> rfl

theorem pHour_pad2 (h : Nat) (hh : h ≤ 23) (r : List Char) :
    pHour (pad2 h ++ r) = some (h, r) := by
  interval_cases h <;> rfl

theorem pMinute_pad2 (mi : Nat) (hmi : mi ≤ 59) (r : List Char) :
    pMinute (pad2 mi ++ r) = some (mi, r) := by
  interval_cases mi <;> rfl

theorem pSecond_pad2 (se : Nat) (hse : se ≤ 59) (r : List Char) :
    pSecond (pad2 se ++ r) = some (se, r) := by
  interval_cases se <;> rfl

theorem daysInMonth_le_31 (y m : Nat) : daysInMonth y m ≤ 31 := by
  unfold daysInMonth
  split
  · split <;> omega
  · split <;> omega

theorem expectChar_same (c : Char) (rest : List Char) :
    expectChar c (c :: rest) = some rest := by
  simp [expectChar]

theorem expectT_upper (rest : List Char) : expectT ('T' :: rest) = some rest := by
  simp [expectT]

theorem pSecond_pad2_nil (se : Nat) (hse : se ≤ 59) :
    pSecond (pad2 se) = some (se, []) := by
  have h := pSecond_pad2 se hse []
  simpa using h

theorem strptime_ts (y m d h mi se : Nat) (hy1 : 1 ≤ y) (hy2 : y ≤ 9999)
    (hm1 : 1 ≤ m) (hm2 : m ≤ 12) (hd1 : 1 ≤ d) (hd2 : d ≤ daysInMonth y m)
    (hh : h ≤ 23) (hmi : mi ≤ 59) (hse : se ≤ 59) :
    pyStrptimeYmdTHMS (tsYmdTHMS y m d h mi se) = some (y, m, d, h, mi, se) := by
  have hd31 : d ≤ 31 := le_trans hd2 (daysInMonth_le_31 y m)
  have hts : tsYmdTHMS y m d h mi se =
      pad4 y ++ '-' :: (pad2 m ++ '-' :: (pad2 d ++ 'T' :: (pad2 h ++ ':' ::
        (pad2 mi ++ ':' :: pad2 se)))) := by
    simp [tsYmdTHMS, datePart, List.append_assoc]
  rw [pyStrptimeYmdTHMS, hts, pYear_pad4 y hy2]
  simp only [expectChar_same, pMonth_pad2 m hm1 hm2, pDay_pad2 d hd1 hd31,
    expectT_upper, pHour_pad2 h hh, pMinute_pad2 mi hmi, pSecond_pad2_nil se hse]
  rw [if_pos trivial, if_pos ⟨hy1, hy2, hm1, hm2, hd1, hd2, hh, hmi, hse⟩]

/-- **C2 counterexample.** The claim states that every input string not
in the exact `YYYY-MM-DDTHH:MM:SS` format yields the empty string; but
CPython's `%m` regex `1[0-2]|0[1-9]|[1-9]` also accepts the unpadded
month of "2019-1-05T00:00:00", which is not in the exact format, and
`schematize_date` returns "2019-01-05" (the re-padded date), not "". -/
theorem c2_counterexample :
    isExactYmdTHMS "2019-1-05T00:00:00" = false ∧
    schematize_date "2019-1-05T00:00:00" = "2019-01-05" ∧
    schematize_date "2019-1-05T00:00:00" ≠ "" := by
  refine ⟨by decide, by decide, by decide⟩

/-- **C2 (amended).** For every zero-padded timestamp
`YYYY-MM-DDTHH:MM:SS` denoting a datetime the `datetime` constructor
accepts (year 1..9999, month 1..12, day within the month, hour ≤ 23,
minute and second ≤ 59), `schematize_date` returns the `YYYY-MM-DD`
prefix of the input (10 characters); and for every input string rejected
by `strptime` — malformed or denoting an out-of-range datetime —
`schematize_date` returns the empty string.  The function is total, so
it never raises.  (Inputs that `strptime`'s flexible field regexes
accept even though they are not zero-padded yield the re-padded date,
not the input prefix and not "": the claim's dichotomy only holds with
the format read as the padded, constructor-valid one.) -/
theorem c2_amended (y m d h mi se : Nat) (hy1 : 1 ≤ y) (hy2 : y ≤ 9999)
    (hm1 : 1 ≤ m) (hm2 : m ≤ 12) (hd1 : 1 ≤ d) (hd2 : d ≤ daysInMonth y m)
    (hh : h ≤ 23) (hmi : mi ≤ 59) (hse : se ≤ 59) :
    schematize_date ⟨tsYmdTHMS y m d h mi se⟩ = ⟨(tsYmdTHMS y m d h mi se).take 10⟩
    ∧ ∀ s : String, pyStrptimeYmdTHMS s.data = none → schematize_date s = "" := by
  constructor
  · show schematize_date ⟨tsYmdTHMS y m d h mi se⟩ = _
    unfold schematize_date
    rw [show (String.mk (tsYmdTHMS y m d h mi se)).data = tsYmdTHMS y m d h mi se from rfl,
      strptime_ts y m d h mi se hy1 hy2 hm1 hm2 hd1 hd2 hh hmi hse]
    have hlen : (datePart y m d).length = 10 := by
      simp [datePart, pad4, pad2]
    rw [show tsYmdTHMS y m d h mi se = datePart y m d ++ 'T' :: pad2 h ++ ':' :: pad2 mi
        ++ ':' :: pad2 se from rfl]
    rw [List.append_assoc, List.append_assoc]
    rw [List.take_left' hlen]
  · intro s hs
    unfold schematize_date
    rw [hs]

theorem lastOk_cons_of_ne (c : Char) (t : List Char) (h : t ≠ []) :
    lastOk (c :: t) = lastOk t := by
  cases t with
  | nil => exact absurd rfl h
  | cons c2 t2 => rfl

theorem lastOk_tail (c : Char) (t : List Char) (h : lastOk (c :: t) = true) :
    lastOk t = true := by
  cases t with
  | nil => rfl
  | cons c2 t2 => rwa [lastOk_cons_of_ne c (c2 :: t2) (by simp)] at h

theorem lastOk_dropWhile (p : Char → Bool) (l : List Char) (h : lastOk l = true) :
    lastOk (l.dropWhile p) = true := by
  induction l with
  | nil => simpa using h
  | cons c t ih =>
    rw [List.dropWhile_cons]
    by_cases hp : p c = true
    · rw [if_pos hp]
      exact ih (lastOk_tail c t h)
    · rw [if_neg hp]
      exact h

theorem headOk_dropWhile_pyWs (l : List Char) : headOk (l.dropWhile pyWs) = true := by
  induction l with
  | nil => rfl
  | cons c t ih =>
    rw [List.dropWhile_cons]
    by_cases hp : pyWs c = true
    · rw [if_pos hp]
      exact ih
    · rw [if_neg hp]
      simp [headOk]
      exact Bool.not_eq_true _ ▸ hp

theorem lastOk_dropEndWs (l : List Char) : lastOk (dropEndWs l) = true := by
  induction l with
  | nil => rfl
  | cons c t ih =>
    rw [dropEndWs]
    by_cases he : (dropEndWs t).isEmpty = true
    · simp only [he, if_pos]
      by_cases hw : pyWs c = true
      · simp [hw, lastOk]
      · simp [hw, lastOk]
    · simp only [he, if_neg, Bool.false_eq_true, not_false_eq_true]
      rw [lastOk_cons_of_ne c _ (by simpa [List.isEmpty_iff] using he)]
      exact ih

theorem headOk_dropEndWs (l : List Char) (h : headOk l = true) :
    headOk (dropEndWs l) = true := by
  cases l with
  | nil => rfl
  | cons c t =>
    rw [dropEndWs]
    by_cases he : (dropEndWs t).isEmpty = true
    · simp only [he, if_pos]
      by_cases hw : pyWs c = true
      · simp [hw, headOk]
      · simp [hw]
        exact h
    · simp only [he, if_neg, Bool.false_eq_true, not_false_eq_true]
      exact h

theorem dropEndWs_eq_self (l : List Char) (h : lastOk l = true) : dropEndWs l = l := by
  induction l with
  | nil => rfl
  | cons c t ih =>
    rw [dropEndWs]
    cases t with
    | nil =>
      simp only [dropEndWs, List.isEmpty_nil, if_pos]
      have : pyWs c = false := by
        simpa [lastOk] using h
      simp [this]
    | cons c2 t2 =>
      have ht : lastOk (c2 :: t2) = true := lastOk_tail c _ h
      rw [ih ht]
      simp

theorem headOk_pyStrip (l : List Char) : headOk (pyStrip l) = true :=
  headOk_dropEndWs _ (headOk_dropWhile_pyWs l)

theorem lastOk_pyStrip (l : List Char) : lastOk (pyStrip l) = true :=
  lastOk_dropEndWs _

theorem pyStrip_eq_self (l : List Char) (h1 : headOk l = true) (h2 : lastOk l = true) :
    pyStrip l = l := by
  unfold pyStrip
  have hd : l.dropWhile pyWs = l := by
    cases l with
    | nil => rfl
    | cons c t =>
      rw [List.dropWhile_cons, if_neg]
      simpa [headOk] using h1
  rw [hd]
  exact dropEndWs_eq_self l h2

theorem containsSub_tail (pat : List Char) (c : Char) (t : List Char)
    (h : containsSub pat (c :: t) = false) : containsSub pat t = false := by
  rw [containsSub] at h
  exact (Bool.or_eq_false_iff.mp h).2

theorem not_prefix_of_not_contains (pat : List Char) (c : Char) (t : List Char)
    (h : containsSub pat (c :: t) = false) : pat.isPrefixOf (c :: t) = false := by
  rw [containsSub] at h
  exact (Bool.or_eq_false_iff.mp h).1

theorem pyReplaceF_id (pat rep : List Char) (fuel : Nat) (l : List Char)
    (h : containsSub pat l = false) : pyReplaceF pat rep fuel l = l := by
  induction fuel generalizing l with
  | zero => cases l <;> rfl
  | succ n ih =>
    cases l with
    | nil => rfl
    | cons c t =>
      rw [pyReplaceF, if_neg]
      · rw [ih t (containsSub_tail pat c t h)]
      · rw [not_and]
        intro _
        simp [not_prefix_of_not_contains pat c t h]

theorem pyReplace_id (pat rep l : List Char) (h : containsSub pat l = false) :
    pyReplace pat rep l = l :=
  pyReplaceF_id pat rep l.length l h

theorem not_double_head (c1 c2 : Char) (t : List Char)
    (h : containsSub [' ', ' '] (c1 :: c2 :: t) = false) : ¬(c1 = ' ' ∧ c2 = ' ') := by
  rintro ⟨rfl, rfl⟩
  rw [containsSub] at h
  simp [List.isPrefixOf] at h

theorem subRunsF_id (rep : List Char) (fuel : Nat) (l : List Char)
    (h : containsSub [' ', ' '] l = false) : subRunsF rep fuel l = l := by
  induction fuel generalizing l with
  | zero =>
    cases l with
    | nil => rfl
    | cons c t => cases t <;> rfl
  | succ n ih =>
    cases l with
    | nil => rfl
    | cons c t =>
      cases t with
      | nil => rfl
      | cons c2 t2 =>
        rw [subRunsF, if_neg (not_double_head c c2 t2 h)]
        rw [ih (c2 :: t2) (containsSub_tail _ c _ h)]

theorem subRuns_id (rep l : List Char) (h : containsSub [' ', ' '] l = false) :
    subRuns rep l = l :=
  subRunsF_id rep l.length l h

theorem subRunsF_head (fuel : Nat) (l : List Char) :
    (subRunsF [' '] fuel l).head? = l.head? := by
  cases fuel with
  | zero =>
    cases l with
    | nil => rfl
    | cons c t => cases t <;> rfl
  | succ n =>
    cases l with
    | nil => rfl
    | cons c t =>
      cases t with
      | nil => rfl
      | cons c2 t2 =>
        rw [subRunsF]
        by_cases hc : c = ' ' ∧ c2 = ' '
        · rw [if_pos hc]
          simp [hc.1]
        · rw [if_neg hc]
          simp

theorem subRunsF_ne_nil (fuel : Nat) (l : List Char) (h : l ≠ []) :
    subRunsF [' '] fuel l ≠ [] := by
  intro heq
  have hh := subRunsF_head fuel l
  rw [heq] at hh
  cases l with
  | nil => exact h rfl
  | cons c t => simp at hh

theorem dropWhile_head_not (p : Char → Bool) (t : List Char) :
    ∀ x, (t.dropWhile p).head? = some x → p x = false := by
  induction t with
  | nil => intro x hx; simp at hx
  | cons c t ih =>
    intro x hx
    rw [List.dropWhile_cons] at hx
    by_cases hp : p c = true
    · rw [if_pos hp] at hx
      exact ih x hx
    · rw [if_neg hp] at hx
      simp at hx
      rw [← hx]
      exact Bool.not_eq_true _ ▸ hp

theorem subRunsF_noDbl (fuel : Nat) (l : List Char) (hf : l.length ≤ fuel) :
    containsSub [' ', ' '] (subRunsF [' '] fuel l) = false := by
  induction fuel generalizing l with
  | zero =>
    have : l = [] := by
      cases l with
      | nil => rfl
      | cons c t => simp at hf
    subst this
    rfl
  | succ n ih =>
    cases l with
    | nil => rfl
    | cons c t =>
      cases t with
      | nil => simp [subRunsF, containsSub, List.isPrefixOf]
      | cons c2 t2 =>
        rw [subRunsF]
        by_cases hc : c = ' ' ∧ c2 = ' '
        · rw [if_pos hc]
          have hlen : (t2.dropWhile (fun c => c == ' ')).length ≤ n := by
            have := length_dropWhile_le (fun c => c == ' ') t2
            simp at hf
            omega
          have hx := ih (t2.dropWhile (fun c => c == ' ')) hlen
          have hhead := subRunsF_head n (t2.dropWhile (fun c => c == ' '))
          rw [show ([' '] ++ subRunsF [' '] n (t2.dropWhile (fun c => c == ' '))) =
            ' ' :: subRunsF [' '] n (t2.dropWhile (fun c => c == ' ')) from rfl]
          rw [containsSub]
          rw [Bool.or_eq_false_iff]
          refine ⟨?_, hx⟩
          cases hXc : subRunsF [' '] n (t2.dropWhile (fun c => c == ' ')) with
          | nil => simp [List.isPrefixOf]
          | cons x xs =>
            have : (t2.dropWhile (fun c => c == ' ')).head? = some x := by
              rw [← hhead, hXc]
              rfl
            have hx' := dropWhile_head_not (fun c => c == ' ') t2 x this
            simp [List.isPrefixOf]
            intro hsp
            rw [hsp] at hx'
            simp at hx'
        · rw [if_neg hc]
          have hx := ih (c2 :: t2) (by simp at hf ⊢; omega)
          have hhead := subRunsF_head n (c2 :: t2)
          rw [containsSub, Bool.or_eq_false_iff]
          refine ⟨?_, hx⟩
          cases hXc : subRunsF [' '] n (c2 :: t2) with
          | nil => simp [List.isPrefixOf]
          | cons x xs =>
            have hx2 : x = c2 := by
              rw [hXc] at hhead
              simpa using hhead
            simp [List.isPrefixOf]
            intro hcsp hxsp
            exact hc ⟨hcsp.symm, by rw [hx2] at hxsp; exact hxsp.symm⟩

theorem headOk_head? (l : List Char) :
    headOk l = (match l.head? with | none => true | some c => !pyWs c) := by
  cases l <;> rfl

theorem subRunsF_headOk (fuel : Nat) (l : List Char) (h : headOk l = true) :
    headOk (subRunsF [' '] fuel l) = true := by
  rw [headOk_head?, subRunsF_head fuel l, ← headOk_head?]
  exact h

theorem all_space_lastOk (l : List Char) (h : ∀ x ∈ l, x = ' ') (hne : l ≠ []) :
    lastOk l = false := by
  induction l with
  | nil => exact absurd rfl hne
  | cons c t ih =>
    cases t with
    | nil =>
      have : c = ' ' := h c (by simp)
      simp [lastOk, this, pyWs]
    | cons c2 t2 =>
      rw [lastOk_cons_of_ne c _ (by simp)]
      exact ih (fun x hx => h x (by simp [hx])) (by simp)

theorem subRunsF_lastOk (fuel : Nat) (l : List Char) (h : lastOk l = true) :
    lastOk (subRunsF [' '] fuel l) = true := by
  induction fuel generalizing l with
  | zero =>
    cases l with
    | nil => exact h
    | cons c t => cases t <;> exact h
  | succ n ih =>
    cases l with
    | nil => exact h
    | cons c t =>
      cases t with
      | nil => exact h
      | cons c2 t2 =>
        rw [subRunsF]
        by_cases hc : c = ' ' ∧ c2 = ' '
        · rw [if_pos hc]
          by_cases ht2 : t2.dropWhile (fun c => c == ' ') = []
          · exfalso
            have hall : ∀ x ∈ c :: c2 :: t2, x = ' ' := by
              intro x hx
              simp only [List.mem_cons] at hx
              rcases hx with rfl | rfl | hx
              · exact hc.1
              · exact hc.2
              · have hx2 := List.dropWhile_eq_nil_iff.mp ht2 x hx
                simpa using hx2
            exact absurd h (by rw [all_space_lastOk _ hall (by simp)]; simp)
          · have hX := subRunsF_ne_nil n _ ht2
            rw [show ([' '] ++ subRunsF [' '] n (t2.dropWhile (fun c => c == ' '))) =
              ' ' :: subRunsF [' '] n (t2.dropWhile (fun c => c == ' ')) from rfl]
            rw [lastOk_cons_of_ne _ _ hX]
            have ht2ne : t2 ≠ [] := by
              intro he
              rw [he] at ht2
              exact ht2 rfl
            have hlt2 : lastOk t2 = true := by
              have h1 := lastOk_tail c _ h
              exact lastOk_tail c2 _ h1
            exact ih _ (lastOk_dropWhile _ _ hlt2)
        · rw [if_neg hc]
          have hX := subRunsF_ne_nil n (c2 :: t2) (by simp)
          rw [lastOk_cons_of_ne _ _ hX]
          exact ih _ (lastOk_tail c _ h)

theorem stripTagsF_id (fuel : Nat) (l : List Char) (h : '<' ∉ l) :
    stripTagsF fuel l = l := by
  induction fuel generalizing l with
  | zero => cases l <;> rfl
  | succ n ih =>
    cases l with
    | nil => rfl
    | cons c t =>
      have hc : c ≠ '<' := by
        intro he
        subst he
        exact h (List.mem_cons_self _ _)
      have ht : '<' ∉ t := fun hx => h (List.mem_cons_of_mem c hx)
      rw [stripTagsF, if_neg (fun hand => hc hand.1), ih t ht]

theorem stripTags_id (l : List Char) (h : '<' ∉ l) : stripTags l = l :=
  stripTagsF_id l.length l h

theorem isPOpen_ne (c : Char) (t : List Char) (h : c ≠ '<') :
    isPOpen (c :: t) = false := by
  cases t with
  | nil => rfl
  | cons c2 t2 => simp [isPOpen, h]

theorem findPSegsF_nil (fuel : Nat) (l : List Char) (h : '<' ∉ l) :
    findPSegsF fuel l = [] := by
  induction fuel generalizing l with
  | zero => cases l <;> rfl
  | succ n ih =>
    cases l with
    | nil => rfl
    | cons c t =>
      rw [findPSegsF, if_neg]
      · exact ih t (fun hx => h (List.mem_cons_of_mem c hx))
      · rw [isPOpen_ne c t (fun he => h (he ▸ List.mem_cons_self c t))]
        simp

theorem findPSegs_nil (l : List Char) (h : '<' ∉ l) : findPSegs l = [] :=
  findPSegsF_nil l.length l h

/-- Every output of `html_textraction` is stripped (no leading or
trailing whitespace) and contains no run of two or more spaces. -/
theorem htmlT_props (s : String) :
    headOk (html_textraction s).data = true ∧ lastOk (html_textraction s).data = true ∧
    containsSub [' ', ' '] (html_textraction s).data = false := by
  unfold html_textraction
  by_cases hs : s = ""
  · rw [if_pos hs]
    refine ⟨by decide, by decide, by decide⟩
  · rw [if_neg hs]
    by_cases hp : (findPSegs s.data).isEmpty = true
    · rw [if_pos hp]
      exact ⟨subRunsF_headOk _ _ (headOk_pyStrip _), subRunsF_lastOk _ _ (lastOk_pyStrip _),
        subRunsF_noDbl _ _ le_rfl⟩
    · rw [if_neg hp]
      exact ⟨subRunsF_headOk _ _ (headOk_pyStrip _), subRunsF_lastOk _ _ (lastOk_pyStrip _),
        subRunsF_noDbl _ _ le_rfl⟩

/-- A nonempty, tag-free, stripped, double-space-free list is a fixed
point of `html_textraction`. -/
theorem htmlT_fixed (l : List Char) (hne : l ≠ []) (hlt : '<' ∉ l)
    (h1 : headOk l = true) (h2 : lastOk l = true)
    (hnd : containsSub [' ', ' '] l = false) :
    html_textraction ⟨l⟩ = ⟨l⟩ := by
  unfold html_textraction
  rw [if_neg (fun heq => hne (by simpa using congrArg String.data heq))]
  rw [show (String.mk l).data = l from rfl]
  rw [findPSegs_nil l hlt]
  rw [if_pos (by rfl)]
  rw [stripTags_id l hlt, pyStrip_eq_self l h1 h2, subRuns_id [' '] l hnd]

/-- Every branch of `parse_event_name` returns through
`html_textraction`. -/
theorem pen_output (s : String) : ∃ z : String, parse_event_name s = html_textraction z := by
  unfold parse_event_name
  split_ifs <;> exact ⟨_, rfl⟩

theorem data_ne_nil_of_ne_empty (s : String) (h : s ≠ "") : s.data ≠ [] := by
  intro hd
  apply h
  cases s with
  | mk d =>
    have hd2 : d = [] := hd
    rw [hd2]

/-- **C6 counterexample.** `parse_event_name` is not idempotent: Python's
`"RIRIPP".replace("RIP", "")` yields "RIP" again (replacement is a
single left-to-right pass), so the first application produces
"RIP Invasive Plant Removal", and the second application removes the
reintroduced "RIP", producing "Invasive Plant Removal". -/
theorem c6_counterexample :
    parse_event_name "RIRIPP" = "RIP Invasive Plant Removal" ∧
    parse_event_name (parse_event_name "RIRIPP") = "Invasive Plant Removal" ∧
    parse_event_name (parse_event_name "RIRIPP") ≠ parse_event_name "RIRIPP" :=
  ⟨by decide, by decide, by decide⟩

/-- **C6 (amended).** `parse_event_name` is idempotent at every input
whose first application's output is nonempty, ASCII-only, free of the
substrings "RIP", "RiP" and " - ", and free of `<` (so that the second
pass has no abbreviation to strip and no markup to parse); the
counterexample shows idempotence fails when the output retains "RIP". -/
theorem c6_amended (s : String)
    (h0 : parse_event_name s ≠ "")
    (hascii : ∀ c ∈ (parse_event_name s).data, c.toNat < 128)
    (hr1 : containsStr (parse_event_name s) "RIP" = false)
    (hr2 : containsStr (parse_event_name s) "RiP" = false)
    (hr3 : containsStr (parse_event_name s) " - " = false)
    (hlt : '<' ∉ (parse_event_name s).data) :
    parse_event_name (parse_event_name s) = parse_event_name s := by
  obtain ⟨z, hz⟩ := pen_output s
  set y := parse_event_name s with hy
  have hprops := htmlT_props z
  rw [← hz] at hprops
  obtain ⟨hH, hL, hD⟩ := hprops
  have hdata_ne : y.data ≠ [] := data_ne_nil_of_ne_empty y h0
  by_cases hph : containsStr y "Invasive Plant Removal" = true
  · unfold parse_event_name
    rw [if_pos (by rw [hph]; simp), if_pos hph]
    rw [show pyAsciiFilter y.data = y.data from
      List.filter_eq_self.mpr (fun a ha => by simpa using hascii a ha)]
    rw [subRuns_id [] y.data hD]
    rw [pyReplace_id "RiP".data [] y.data hr2]
    rw [pyReplace_id " - ".data [] y.data hr3]
    rw [pyReplace_id "RIP".data [] y.data hr1]
    rw [subRuns_id [' '] y.data hD, pyStrip_eq_self y.data hH hL]
    exact htmlT_fixed y.data hdata_ne hlt hH hL hD
  · unfold parse_event_name
    rw [if_neg (by simp [hr1, hr2, hph])]
    have hfix := htmlT_fixed y.data hdata_ne hlt hH hL hD
    exact hfix

/-- Witness for the amended C6: "Gulf Branch RiP" parses to
"Gulf Branch Invasive Plant Removal", which satisfies all side
conditions, and a second application leaves it unchanged. -/
theorem c6_amended_witness :
    parse_event_name (parse_event_name "Gulf Branch RiP") =
      parse_event_name "Gulf Branch RiP" :=
  c6_amended "Gulf Branch RiP" (by decide) (by decide) (by decide) (by decide)
    (by decide) (by decide)

/-- Witness for the amended C2: the valid padded timestamp
"2019-01-25T00:00:00" maps to its prefix "2019-01-25", and the
unparseable "nope" maps to "". -/
theorem c2_amended_witness :
    schematize_date ⟨tsYmdTHMS 2019 1 25 0 0 0⟩ = ⟨(tsYmdTHMS 2019 1 25 0 0 0).take 10⟩
    ∧ schematize_date "nope" = "" :=
  ⟨(c2_amended 2019 1 25 0 0 0 (by decide) (by decide) (by decide) (by decide)
      (by decide) (by decide) (by decide) (by decide) (by decide)).1,
   (c2_amended 2019 1 25 0 0 0 (by decide) (by decide) (by decide) (by decide)
      (by decide) (by decide) (by decide) (by decide) (by decide)).2 "nope" (by decide)⟩

/-- **C7.** Every record emitted by `schematize_events` carries the cost
of its source item computed by the rule: "0" when the free-of-charge
flag is set, else the digit characters (in order) of a non-empty cost
description, else the empty string. -/
theorem c7_cost_rule (searchApi : String → List ArlEvent) (items : List ArlEvent)
    (e : SchemaEvent) (he : e ∈ schematize_events searchApi items) :
    ∃ item ∈ items, e.eventCost =
      (if item.freeOfChargeInd then "0"
       else if item.eventCostDsc ≠ "" then pyDigits item.eventCostDsc else "") := by
  induction items with
  | nil => simp [schematize_events] at he
  | cons item rest ih =>
    rw [schematize_events] at he
    by_cases h1 : arlNameExcluded item = true
    · rw [if_pos h1] at he
      obtain ⟨it, hmem, hcost⟩ := ih he
      exact ⟨it, List.mem_cons_of_mem _ hmem, hcost⟩
    · rw [if_neg h1] at he
      by_cases h2 : arlVenueExcluded item = true
      · rw [if_pos h2] at he
        obtain ⟨it, hmem, hcost⟩ := ih he
        exact ⟨it, List.mem_cons_of_mem _ hmem, hcost⟩
      · rw [if_neg h2] at he
        rcases List.mem_cons.mp he with rfl | hmem
        · exact ⟨item, List.mem_cons_self _ _, rfl⟩
        · obtain ⟨it, hm, hc⟩ := ih hmem
          exact ⟨it, List.mem_cons_of_mem _ hm, hc⟩

/-- Witness for C7: the record emitted for a `freeOfChargeInd = true`
item has cost "0". -/
theorem c7_cost_rule_witness :
    ∃ item ∈ [arlItemFree], arlFreeRecord.eventCost =
      (if item.freeOfChargeInd then "0"
       else if item.eventCostDsc ≠ "" then pyDigits item.eventCostDsc else "") :=
  c7_cost_rule arlApiEmpty [arlItemFree] arlFreeRecord (by decide)

/-- **C8.** An item contributes no record to the output of
`schematize_events` exactly when its parsed name contains "Task Force"
or "Forestry Commission", or its extracted venue is
"Earth Products Yard", contains "Library", or is empty; in particular an
item with venue "Arlington Central Library" is excluded. -/
theorem c8_filtering :
    (∀ (searchApi : String → List ArlEvent) (item : ArlEvent) (items : List ArlEvent),
      (schematize_events searchApi (item :: items)).length =
          (schematize_events searchApi items).length ↔
        (containsStr (parse_event_name item.eventName) "Task Force" = true ∨
         containsStr (parse_event_name item.eventName) "Forestry Commission" = true ∨
         html_textraction item.locationName = "Earth Products Yard" ∨
         containsStr (html_textraction item.locationName) "Library" = true ∨
         html_textraction item.locationName = ""))
    ∧ ∀ searchApi : String → List ArlEvent,
        schematize_events searchApi [arlLibraryItem] = [] := by
  constructor
  · intro searchApi item items
    rw [schematize_events]
    by_cases h1 : arlNameExcluded item = true
    · rw [if_pos h1]
      refine iff_of_true rfl ?_
      simp only [arlNameExcluded, Bool.or_eq_true] at h1
      rcases h1 with h | h
      · exact Or.inl h
      · exact Or.inr (Or.inl h)
    · rw [if_neg h1]
      by_cases h2 : arlVenueExcluded item = true
      · rw [if_pos h2]
        refine iff_of_true rfl ?_
        simp only [arlVenueExcluded, Bool.or_eq_true, decide_eq_true_eq] at h2
        rcases h2 with (h | h) | h
        · exact Or.inr (Or.inr (Or.inl h))
        · exact Or.inr (Or.inr (Or.inr (Or.inl h)))
        · exact Or.inr (Or.inr (Or.inr (Or.inr h)))
      · rw [if_neg h2]
        refine iff_of_false (by simp) ?_
        simp only [arlNameExcluded, arlVenueExcluded, Bool.or_eq_true,
          decide_eq_true_eq, not_or] at h1 h2
        rintro (h | h | h | h | h)
        · exact absurd h h1.1
        · exact absurd h h1.2
        · exact absurd h h2.1.1
        · exact absurd h h2.1.2
        · exact absurd h h2.2
  · intro searchApi
    rfl

/-! ### C5: ambiguous emphasised labels -/

theorem processParas_error (l : List PNode) (acc : List (String × String))
    (h : ∃ p ∈ l, kwMatch p = true ∧ 1 < (findAll "strong" p).length) :
    processParas acc l = .error () := by
  induction l generalizing acc with
  | nil => simp at h
  | cons p ps ih =>
    obtain ⟨q, hq, hkw, hlen⟩ := h
    rw [processParas]
    rcases List.mem_cons.mp hq with rfl | hq2
    · have hone : exactlyOne (findAll "strong" q) = .error () := by
        rcases hl : findAll "strong" q with _ | ⟨x, _ | ⟨y, t⟩⟩
        · rw [hl] at hlen
          simp at hlen
        · rw [hl] at hlen
          simp at hlen
        · rfl
      have hpp : processPara acc q = .error () := by
        rw [processPara, if_pos hkw, hone]
      rw [hpp]
    · cases hh : processPara acc p with
      | error e => rfl
      | ok acc2 => exact ih acc2 ⟨q, hq2, hkw, hlen⟩

/-- **C5 counterexample.** The claim says an ambiguous paragraph's
failure is confined to that paragraph's field.  On `ambigPage` — whose
other keyword paragraph and name/description are perfectly extractable,
as the control `goodPage` shows — `find_event_data` does not return a
record missing one field: the `ValueError` of `mi.one` aborts the whole
page (and, uncaught in `main`, the whole crawl). -/
theorem c5_counterexample :
    find_event_data ambigPage = .error () ∧
    find_event_data goodPage = .ok (some
      [("Event Name", "Vigorous Hike"), ("Description", "A pleasant walk."),
       ("Start Date", "2019-01-25"), ("Start Time", "10:00 AM")]) :=
  ⟨rfl, rfl⟩

/-- **C5 (amended).** For every detail page with at least one `<th>` and
one `<p>` (so extraction reaches the paragraph loop), if some paragraph
matches a keyword label and contains more than one emphasised element,
extraction fails deterministically — but for the whole page, not just
that field: `find_event_data` raises (returns `.error`), and the
exception propagates out of the page's extraction. -/
theorem c5_amended (doc : PNode)
    (hth : findAll "th" doc ≠ [])
    (hp : findAll "p" doc ≠ [])
    (hpara : ∃ para ∈ findAll "p" doc, kwMatch para = true ∧
      1 < (findAll "strong" para).length) :
    find_event_data doc = .error () := by
  unfold find_event_data
  cases hthe : (findAll "th" doc).getLast? with
  | none => exact absurd (List.getLast?_eq_none_iff.mp hthe) hth
  | some th =>
    cases hple : (findAll "p" doc).getLast? with
    | none => exact absurd (List.getLast?_eq_none_iff.mp hple) hp
    | some pl =>
      dsimp only
      rw [processParas_error (findAll "p" doc) _ hpara]

/-- Witness for the amended C5 at the concrete ambiguous page. -/
theorem c5_amended_witness : find_event_data ambigPage = .error () :=
  c5_amended ambigPage (fun h => nomatch h) (fun h => nomatch h)
    ⟨PNode.elem "p" none [PNode.elem "strong" none [PNode.text "Start Date:"],
        PNode.elem "strong" none [PNode.text "extra"], PNode.text " 2019-01-25"],
      List.Mem.head _, rfl, by decide⟩

/-! ### C4: one malformed page among many -/

theorem crawlGo_eq_docsGo (fetch : String → PNode) (anchors : List PNode) :
    crawlGo fetch anchors =
      docsGo ((anchors.filter
          (fun aTag => containsStr ((hrefOf aTag).getD "") "calendar.aspx")).map
        (fun aTag => fetch (pjoin "Custom" (splitTail ((hrefOf aTag).getD ""))))) := by
  induction anchors with
  | nil => rfl
  | cons a rest ih =>
    rw [crawlGo]
    by_cases hc : containsStr ((hrefOf a).getD "") "calendar.aspx" = true
    · rw [if_pos hc]
      have hfc : (a :: rest).filter
            (fun aTag => containsStr ((hrefOf aTag).getD "") "calendar.aspx") =
          a :: rest.filter
            (fun aTag => containsStr ((hrefOf aTag).getD "") "calendar.aspx") := by
        simp [List.filter_cons, hc]
      rw [hfc, List.map_cons, docsGo]
      cases hf : find_event_data (fetch (pjoin "Custom" (splitTail ((hrefOf a).getD "")))) with
      | error e => rfl
      | ok o =>
        cases o with
        | none => exact ih
        | some r => rw [ih]
    · have hfc : (a :: rest).filter
            (fun aTag => containsStr ((hrefOf aTag).getD "") "calendar.aspx") =
          rest.filter
            (fun aTag => containsStr ((hrefOf aTag).getD "") "calendar.aspx") := by
        simp [List.filter_cons, hc]
      rw [if_neg hc, hfc, ih]

theorem patcRecords_eq (index : PNode) (fetch : String → PNode) :
    patcRecords index fetch = docsGo (crawlDocs index fetch) :=
  crawlGo_eq_docsGo fetch (findAll "a" index)

theorem fed_none (d : PNode) (h : findAll "th" d = [] ∨ findAll "p" d = []) :
    find_event_data d = .ok none := by
  unfold find_event_data
  rcases h with h | h
  · rw [h]
    cases (findAll "p" d).getLast? <;> rfl
  · rw [h]
    cases (findAll "th" d).getLast? <;> rfl

theorem goodDoc_inv (duParse : String → Option PyDT) (d : PNode)
    (h : goodDoc duParse d = true) :
    ∃ r, find_event_data d = .ok (some r) ∧ goodRow duParse r = true := by
  unfold goodDoc at h
  cases hf : find_event_data d with
  | error e =>
    rw [hf] at h
    simp at h
  | ok o =>
    cases o with
    | none =>
      rw [hf] at h
      simp at h
    | some r =>
      rw [hf] at h
      exact ⟨r, rfl, h⟩

theorem goodRow_parts (duParse : String → Option PyDT) (r : List (String × String))
    (h : goodRow duParse r = true) :
    r.isEmpty = false ∧
    (∃ sd, rowGet r "Start Date" = some sd ∧ (duParse sd).isSome = true) ∧
    (∃ st, rowGet r "Start Time" = some st ∧ (duParse st).isSome = true) := by
  unfold goodRow at h
  simp only [Bool.and_eq_true, Bool.not_eq_true'] at h
  obtain ⟨⟨he, hsd⟩, hst⟩ := h
  refine ⟨he, ?_, ?_⟩
  · cases hg : rowGet r "Start Date" with
    | none =>
      rw [hg] at hsd
      simp at hsd
    | some sd =>
      rw [hg] at hsd
      exact ⟨sd, rfl, hsd⟩
  · cases hg : rowGet r "Start Time" with
    | none =>
      rw [hg] at hst
      simp at hst
    | some st =>
      rw [hg] at hst
      exact ⟨st, rfl, hst⟩

theorem docsGo_good (duParse : String → Option PyDT) (ds : List PNode)
    (h : ∀ d ∈ ds, goodDoc duParse d = true) :
    ∃ rs, docsGo ds = .ok rs ∧ rs.length = ds.length ∧
      ∀ r ∈ rs, goodRow duParse r = true := by
  induction ds with
  | nil => exact ⟨[], rfl, rfl, by simp⟩
  | cons d ds ih =>
    obtain ⟨r, hf, hg⟩ := goodDoc_inv duParse d (h d (List.mem_cons_self _ _))
    obtain ⟨rs, hgo, hlen, hall⟩ := ih (fun x hx => h x (List.mem_cons_of_mem _ hx))
    refine ⟨r :: rs, ?_, by simp [hlen], ?_⟩
    · rw [docsGo, hf]
      dsimp only
      have hrne := (goodRow_parts duParse r hg).1
      rw [if_neg (by simp [hrne]), hgo]
    · intro x hx
      rcases List.mem_cons.mp hx with rfl | hx2
      · exact hg
      · exact hall x hx2

theorem c4_core (duParse : String → Option PyDT) (pre post : List PNode) (bad : PNode)
    (hbad : find_event_data bad = .ok none)
    (hgood : ∀ d ∈ pre ++ post, goodDoc duParse d = true) :
    ∃ rs, docsGo (pre ++ bad :: post) = .ok rs ∧
      rs.length = pre.length + post.length ∧
      ∀ r ∈ rs, goodRow duParse r = true := by
  induction pre with
  | nil =>
    obtain ⟨rs, hgo, hlen, hall⟩ := docsGo_good duParse post (by simpa using hgood)
    refine ⟨rs, ?_, by simpa using hlen, hall⟩
    rw [List.nil_append, docsGo, hbad]
    exact hgo
  | cons p pre ih =>
    have hp := hgood p (by simp)
    obtain ⟨r, hf, hg⟩ := goodDoc_inv duParse p hp
    obtain ⟨rs, hgo, hlen, hall⟩ := ih (fun d hd => hgood d (by
      rw [List.cons_append]
      exact List.mem_cons_of_mem p hd))
    refine ⟨r :: rs, ?_, by simp [hlen]; omega, ?_⟩
    · rw [List.cons_append, docsGo, hf]
      dsimp only
      have hrne := (goodRow_parts duParse r hg).1
      rw [if_neg (by simp [hrne]), hgo]
    · intro x hx
      rcases List.mem_cons.mp hx with rfl | hx2
      · exact hg
      · exact hall x hx2

theorem rowGet_setCol_self (r : List (String × α)) (k : String) (v : α) :
    rowGet (setCol r k v) k = some v := by
  induction r with
  | nil => simp [setCol, rowGet]
  | cons p rest ih =>
    obtain ⟨k2, v2⟩ := p
    rw [setCol]
    by_cases h : k2 = k
    · rw [if_pos h, rowGet, if_pos rfl]
    · rw [if_neg h, rowGet, if_neg h]
      exact ih

theorem rowGet_setCol_ne (r : List (String × α)) (kq kc : String) (v : α)
    (h : kq ≠ kc) : rowGet (setCol r kc v) kq = rowGet r kq := by
  induction r with
  | nil => simp [setCol, rowGet, Ne.symm h]
  | cons p rest ih =>
    obtain ⟨k2, v2⟩ := p
    by_cases h2 : k2 = kc
    · subst h2
      simp [setCol, rowGet, Ne.symm h]
    · rw [setCol, if_neg h2]
      by_cases h3 : k2 = kq
      · subst h3
        simp [rowGet]
      · simp [rowGet, h3, ih]

theorem rowGet_toPValRow (r : List (String × String)) (k : String) :
    rowGet (toPValRow r) k = (rowGet r k).map PVal.str := by
  induction r with
  | nil => rfl
  | cons p rest ih =>
    obtain ⟨k2, v2⟩ := p
    rw [toPValRow, List.map_cons, rowGet, rowGet]
    by_cases h : k2 = k
    · rw [if_pos h, if_pos h]
      rfl
    · rw [if_neg h, if_neg h]
      exact ih

theorem rowGet_assignDefaults_ne (r : List (String × PVal)) (k : String)
    (h : k ∉ assignKeys) : rowGet (assignDefaults r) k = rowGet r k := by
  simp only [assignKeys, List.mem_cons, List.not_mem_nil, or_false, not_or] at h
  obtain ⟨h1, h2, h3, h4, h5, h6, h7⟩ := h
  unfold assignDefaults
  rw [rowGet_setCol_ne _ _ _ _ h7, rowGet_setCol_ne _ _ _ _ h6,
    rowGet_setCol_ne _ _ _ _ h5, rowGet_setCol_ne _ _ _ _ h4,
    rowGet_setCol_ne _ _ _ _ h3, rowGet_setCol_ne _ _ _ _ h2,
    rowGet_setCol_ne _ _ _ _ h1]

theorem fmtRow_good (duParse : String → Option PyDT) (r : List (String × String))
    (hg : goodRow duParse r = true) :
    ∃ r2, fmtRow duParse (assignDefaults (toPValRow r)) = some r2 := by
  obtain ⟨-, ⟨sd, hsd, hsds⟩, ⟨st, hst, hsts⟩⟩ := goodRow_parts duParse r hg
  obtain ⟨dtd, hdtd⟩ := Option.isSome_iff_exists.mp hsds
  obtain ⟨dtt, hdtt⟩ := Option.isSome_iff_exists.mp hsts
  unfold fmtRow
  rw [rowGet_assignDefaults_ne _ _ (by decide), rowGet_toPValRow, hsd]
  dsimp only [Option.map_some']
  rw [hdtd]
  dsimp only
  rw [rowGet_assignDefaults_ne _ _ (by decide), rowGet_toPValRow, hst]
  dsimp only [Option.map_some']
  rw [hdtt]
  exact ⟨_, rfl⟩

theorem mapOptM_all_some (f : α → Option β) (l : List α)
    (h : ∀ x ∈ l, (f x).isSome = true) :
    ∃ ys, mapOptM f l = some ys ∧ ys.length = l.length := by
  induction l with
  | nil => exact ⟨[], rfl, rfl⟩
  | cons x xs ih =>
    obtain ⟨y, hy⟩ := Option.isSome_iff_exists.mp (h x (List.mem_cons_self _ _))
    obtain ⟨ys, hys, hlen⟩ := ih (fun z hz => h z (List.mem_cons_of_mem _ hz))
    refine ⟨y :: ys, ?_, by simp [hlen]⟩
    rw [mapOptM, hy, hys]

/-- **C4 counterexample.** The claim predicts that a crawl of `N` pages
with exactly one malformed yields `N - 1` records; at `N = 1` the single
malformed page is indeed skipped (`find_event_data` returns `None`), but
the record set is then empty, `pd.DataFrame.from_records([])` has no
"Start Date" column, and `format_df_time_columns` raises a `KeyError`:
`main` raises instead of returning 0 records. -/
theorem c4_counterexample :
    find_event_data badPage = .ok none ∧
    (crawlDocs patcIndexSolo (fun _ => badPage)).length = 1 ∧
    patcMain patcIndexSolo (fun _ => badPage) toyParse = .error () :=
  ⟨rfl, rfl, rfl⟩

/-- **C4 (amended).** For every crawl whose visited detail pages are
`pre ++ [bad] ++ post` with `bad` malformed (no `<th>` or no `<p>`, so
its extraction raises `IndexError`, is caught and skipped), every other
page well-formed with parseable "Start Date"/"Start Time" fields, and at
least one other page present (`N ≥ 2`), the crawl continues and `main`
returns exactly `N - 1` records.  (With `N = 1` the code instead raises
on the empty frame — the counterexample.) -/
theorem c4_amended (index : PNode) (fetch : String → PNode)
    (duParse : String → Option PyDT) (pre post : List PNode) (bad : PNode)
    (hdocs : crawlDocs index fetch = pre ++ bad :: post)
    (hbad : findAll "th" bad = [] ∨ findAll "p" bad = [])
    (hgood : ∀ d ∈ pre ++ post, goodDoc duParse d = true)
    (hne : pre ++ post ≠ []) :
    ∃ rows, patcMain index fetch duParse = .ok rows ∧
      rows.length = (crawlDocs index fetch).length - 1 := by
  obtain ⟨rs, hgo, hlen, hall⟩ := c4_core duParse pre post bad (fed_none bad hbad) hgood
  have hrecs : patcRecords index fetch = .ok rs := by
    rw [patcRecords_eq, hdocs, hgo]
  obtain ⟨r0, rs', hrs0⟩ : ∃ r0 rs', rs = r0 :: rs' := by
    cases rs with
    | nil =>
      exfalso
      apply hne
      rw [List.length_nil] at hlen
      have hp : pre = [] := List.length_eq_zero.mp (by omega)
      have hq : post = [] := List.length_eq_zero.mp (by omega)
      rw [hp, hq]
      rfl
    | cons a b => exact ⟨a, b, rfl⟩
  have hcol1 : colExists ((rs.map toPValRow).map assignDefaults) "Start Date" = true := by
    obtain ⟨-, ⟨sd, hsd, -⟩, -⟩ :=
      goodRow_parts duParse r0 (hall r0 (hrs0 ▸ List.mem_cons_self _ _))
    rw [hrs0]
    simp only [List.map_cons, colExists, List.any_cons, Bool.or_eq_true]
    left
    rw [rowGet_assignDefaults_ne _ _ (by decide), rowGet_toPValRow, hsd]
    rfl
  have hcol2 : colExists ((rs.map toPValRow).map assignDefaults) "Start Time" = true := by
    obtain ⟨-, -, ⟨st, hst, -⟩⟩ :=
      goodRow_parts duParse r0 (hall r0 (hrs0 ▸ List.mem_cons_self _ _))
    rw [hrs0]
    simp only [List.map_cons, colExists, List.any_cons, Bool.or_eq_true]
    left
    rw [rowGet_assignDefaults_ne _ _ (by decide), rowGet_toPValRow, hst]
    rfl
  have hfmt : ∀ x ∈ (rs.map toPValRow).map assignDefaults,
      (fmtRow duParse x).isSome = true := by
    intro x hx
    simp only [List.map_map, List.mem_map, Function.comp] at hx
    obtain ⟨r, hr, rfl⟩ := hx
    obtain ⟨r2, hfr⟩ := fmtRow_good duParse r (hall r hr)
    rw [hfr]
    rfl
  obtain ⟨df2, hdf2, hlen2⟩ :=
    mapOptM_all_some (fmtRow duParse) ((rs.map toPValRow).map assignDefaults) hfmt
  have hfdf : format_df_time_columns duParse ((rs.map toPValRow).map assignDefaults) =
      some df2 := by
    unfold format_df_time_columns
    rw [if_pos ⟨hcol1, hcol2⟩]
    exact hdf2
  refine ⟨df2.map (fun r => renameRow (dropCols r)), ?_, ?_⟩
  · unfold patcMain
    rw [hrecs]
    dsimp only
    rw [hfdf]
  · rw [List.length_map, hlen2, List.length_map, List.length_map, hlen, hdocs]
    simp

theorem renameKey_cases (k n : String) (h : renameKey k = n) :
    k = n ∨ (k, n) ∈ renamePairs := by
  rw [renameKey] at h
  by_cases h1 : k = "all_day_event"
  · rw [if_pos h1] at h
    exact Or.inr (by rw [h1, ← h]; decide)
  rw [if_neg h1] at h
  by_cases h2 : k = "currency"
  · rw [if_pos h2] at h
    exact Or.inr (by rw [h2, ← h]; decide)
  rw [if_neg h2] at h
  by_cases h3 : k = "Description"
  · rw [if_pos h3] at h
    exact Or.inr (by rw [h3, ← h]; decide)
  rw [if_neg h3] at h
  by_cases h4 : k = "end_date"
  · rw [if_pos h4] at h
    exact Or.inr (by rw [h4, ← h]; decide)
  rw [if_neg h4] at h
  by_cases h5 : k = "end_time"
  · rw [if_pos h5] at h
    exact Or.inr (by rw [h5, ← h]; decide)
  rw [if_neg h5] at h
  by_cases h6 : k = "event_cost"
  · rw [if_pos h6] at h
    exact Or.inr (by rw [h6, ← h]; decide)
  rw [if_neg h6] at h
  by_cases h7 : k = "event_organizers"
  · rw [if_pos h7] at h
    exact Or.inr (by rw [h7, ← h]; decide)
  rw [if_neg h7] at h
  by_cases h8 : k = "start_date"
  · rw [if_pos h8] at h
    exact Or.inr (by rw [h8, ← h]; decide)
  rw [if_neg h8] at h
  by_cases h9 : k = "start_time"
  · rw [if_pos h9] at h
    exact Or.inr (by rw [h9, ← h]; decide)
  rw [if_neg h9] at h
  by_cases h10 : k = "time_zone"
  · rw [if_pos h10] at h
    exact Or.inr (by rw [h10, ← h]; decide)
  rw [if_neg h10] at h
  by_cases h11 : k = "venue"
  · rw [if_pos h11] at h
    exact Or.inr (by rw [h11, ← h]; decide)
  rw [if_neg h11] at h
  by_cases h12 : k = "www"
  · rw [if_pos h12] at h
    exact Or.inr (by rw [h12, ← h]; decide)
  rw [if_neg h12] at h
  exact Or.inl h

theorem rowGet_mem (r : List (String × α)) (k : String) (v : α)
    (h : rowGet r k = some v) : (k, v) ∈ r := by
  induction r with
  | nil => simp [rowGet] at h
  | cons p rest ih =>
    obtain ⟨k2, v2⟩ := p
    rw [rowGet] at h
    by_cases h2 : k2 = k
    · rw [if_pos h2] at h
      subst h2
      injection h with h3
      subst h3
      exact List.mem_cons_self _ _
    · rw [if_neg h2] at h
      exact List.mem_cons_of_mem _ (ih h)

theorem keyVal_of_nodup (r : List (String × α)) (k : String) (v : α)
    (hnd : (r.map Prod.fst).Nodup) (hg : rowGet r k = some v) :
    ∀ p ∈ r, p.1 = k → p.2 = v := by
  induction r with
  | nil => simp
  | cons q rest ih =>
    obtain ⟨k2, v2⟩ := q
    rw [List.map_cons, List.nodup_cons] at hnd
    intro p hp hpk
    rw [rowGet] at hg
    rcases List.mem_cons.mp hp with rfl | hp2
    · rw [if_pos hpk] at hg
      simpa using hg
    · by_cases h2 : k2 = k
      · exfalso
        apply hnd.1
        rw [h2, ← hpk]
        exact List.mem_map.mpr ⟨p, hp2, rfl⟩
      · rw [if_neg h2] at hg
        exact ih hnd.2 hg p hp2 hpk

theorem keys_setCol_mem (r : List (String × α)) (kc k : String) (v : α)
    (h : k ∈ (setCol r kc v).map Prod.fst) : k = kc ∨ k ∈ r.map Prod.fst := by
  induction r with
  | nil => simpa [setCol] using h
  | cons p rest ih =>
    obtain ⟨k2, v2⟩ := p
    rw [setCol] at h
    rw [List.map_cons, List.mem_cons]
    by_cases h2 : k2 = kc
    · rw [if_pos h2] at h
      rw [List.map_cons, List.mem_cons] at h
      rcases h with h | h
      · exact Or.inl h
      · exact Or.inr (Or.inr h)
    · rw [if_neg h2] at h
      rw [List.map_cons, List.mem_cons] at h
      rcases h with h | h
      · exact Or.inr (Or.inl h)
      · rcases ih h with h3 | h3
        · exact Or.inl h3
        · exact Or.inr (Or.inr h3)

theorem setCol_keys_nodup (r : List (String × α)) (kc : String) (v : α)
    (h : (r.map Prod.fst).Nodup) : ((setCol r kc v).map Prod.fst).Nodup := by
  induction r with
  | nil => simp [setCol]
  | cons p rest ih =>
    obtain ⟨k2, v2⟩ := p
    rw [List.map_cons, List.nodup_cons] at h
    rw [setCol]
    by_cases h2 : k2 = kc
    · rw [if_pos h2]
      rw [List.map_cons, List.nodup_cons]
      exact ⟨h2 ▸ h.1, h.2⟩
    · rw [if_neg h2]
      rw [List.map_cons, List.nodup_cons]
      refine ⟨?_, ih h.2⟩
      intro hmem
      rcases keys_setCol_mem rest kc k2 v hmem with h3 | h3
      · exact h2 h3
      · exact h.1 h3

theorem mem_setCol (r : List (String × α)) (kc : String) (v : α) (p : String × α)
    (h : p ∈ setCol r kc v) : p = (kc, v) ∨ p ∈ r := by
  induction r with
  | nil => simpa [setCol] using h
  | cons q rest ih =>
    obtain ⟨k2, v2⟩ := q
    rw [setCol] at h
    by_cases h2 : k2 = kc
    · rw [if_pos h2] at h
      rcases List.mem_cons.mp h with rfl | h3
      · exact Or.inl rfl
      · exact Or.inr (List.mem_cons_of_mem _ h3)
    · rw [if_neg h2] at h
      rcases List.mem_cons.mp h with rfl | h3
      · exact Or.inr (List.mem_cons_self _ _)
      · rcases ih h3 with h4 | h4
        · exact Or.inl h4
        · exact Or.inr (List.mem_cons_of_mem _ h4)

theorem keys_toPValRow (r : List (String × String)) :
    (toPValRow r).map Prod.fst = r.map Prod.fst := by
  unfold toPValRow
  rw [List.map_map]
  rfl

theorem rowGet_dropCols (r : List (String × PVal)) (k : String)
    (h1 : k ≠ "Start Date") (h2 : k ≠ "Start Time") :
    rowGet (dropCols r) k = rowGet r k := by
  induction r with
  | nil => rfl
  | cons p rest ih =>
    obtain ⟨k2, v2⟩ := p
    rw [dropCols, List.filter_cons]
    by_cases hk : k2 = k
    · subst hk
      rw [if_pos (by simp [h1, h2]), rowGet, if_pos rfl, rowGet, if_pos rfl]
    · by_cases hkeep : (k2 ≠ "Start Date" ∧ k2 ≠ "Start Time")
      · rw [if_pos (by simpa using hkeep), rowGet, if_neg hk, rowGet, if_neg hk]
        exact ih
      · rw [if_neg (by simpa using hkeep), rowGet, if_neg hk]
        exact ih

theorem rowGet_renameRow (r : List (String × PVal)) (n : String) (w : PVal)
    (hex : ∃ p ∈ r, renameKey p.1 = n)
    (hval : ∀ p ∈ r, renameKey p.1 = n → p.2 = w) :
    rowGet (renameRow r) n = some w := by
  induction r with
  | nil => simp at hex
  | cons p rest ih =>
    obtain ⟨k, v⟩ := p
    rw [renameRow, List.map_cons]
    dsimp only
    by_cases h : renameKey k = n
    · rw [rowGet, if_pos h]
      exact congrArg some (hval (k, v) (List.mem_cons_self _ _) h)
    · rw [rowGet, if_neg h]
      refine ih ?_ ?_
      · obtain ⟨q, hq, hqn⟩ := hex
        rcases List.mem_cons.mp hq with rfl | hq2
        · exact absurd hqn h
        · exact ⟨q, hq2, hqn⟩
      · intro q hq hqn
        exact hval q (List.mem_cons_of_mem _ hq) hqn

theorem renamePairs_src (n src : String)
    (hd : renamePairs.all (fun p => !(p.2 == n) || (p.1 == src)) = true) :
    ∀ k, (k, n) ∈ renamePairs → k = src := by
  intro k hk
  have h2 := List.all_eq_true.mp hd _ hk
  simp at h2
  exact h2

/-- Looking a canonical name up in the renamed, dropped row: provided
the row's keys are duplicate-free and every key is either written by the
frame stage itself or an extracted key avoiding the canonical names, the
canonical column `n` holds exactly the value stored under its unique
`RENAME_MAP` source `src`. -/
theorem renamed_lookup (r2 : List (String × PVal)) (rkeys : List String)
    (hnd : (r2.map Prod.fst).Nodup)
    (hsub : ∀ k ∈ r2.map Prod.fst, k ∈ pipelineKeys ∨ k ∈ rkeys)
    (hrk : ∀ k ∈ rkeys, k ∉ renameTargets)
    (src n : String) (w : PVal)
    (hpair : renameKey src = n)
    (hnt : n ∈ renameTargets)
    (hnp : n ∉ pipelineKeys)
    (hsrc : ∀ k, (k, n) ∈ renamePairs → k = src)
    (hsd : src ≠ "Start Date") (hst : src ≠ "Start Time")
    (hget : rowGet r2 src = some w) :
    rowGet (renameRow (dropCols r2)) n = some w := by
  have hkv : ∀ p ∈ r2, p.1 = src → p.2 = w := keyVal_of_nodup r2 src w hnd hget
  have hget2 : rowGet (dropCols r2) src = some w := by
    rw [rowGet_dropCols r2 src hsd hst]
    exact hget
  have hmem : (src, w) ∈ dropCols r2 := rowGet_mem _ _ _ hget2
  apply rowGet_renameRow
  · exact ⟨(src, w), hmem, hpair⟩
  · intro p hp hpn
    have hp2 : p ∈ r2 := List.mem_of_mem_filter hp
    rcases renameKey_cases p.1 n hpn with h | h
    · exfalso
      have hk : p.1 ∈ r2.map Prod.fst := List.mem_map.mpr ⟨p, hp2, rfl⟩
      rcases hsub _ hk with hin | hin
      · rw [h] at hin
        exact hnp hin
      · rw [h] at hin
        exact hrk _ hin hnt
    · exact hkv p hp2 (hsrc _ h)

theorem keys_assignDefaults_mem (r : List (String × PVal)) (k : String)
    (h : k ∈ (assignDefaults r).map Prod.fst) : k ∈ assignKeys ∨ k ∈ r.map Prod.fst := by
  unfold assignDefaults at h
  rcases keys_setCol_mem _ _ _ _ h with rfl | h
  · exact Or.inl (by decide)
  rcases keys_setCol_mem _ _ _ _ h with rfl | h
  · exact Or.inl (by decide)
  rcases keys_setCol_mem _ _ _ _ h with rfl | h
  · exact Or.inl (by decide)
  rcases keys_setCol_mem _ _ _ _ h with rfl | h
  · exact Or.inl (by decide)
  rcases keys_setCol_mem _ _ _ _ h with rfl | h
  · exact Or.inl (by decide)
  rcases keys_setCol_mem _ _ _ _ h with rfl | h
  · exact Or.inl (by decide)
  rcases keys_setCol_mem _ _ _ _ h with rfl | h
  · exact Or.inl (by decide)
  exact Or.inr h

theorem assignDefaults_keys_nodup (r : List (String × PVal))
    (h : (r.map Prod.fst).Nodup) : ((assignDefaults r).map Prod.fst).Nodup := by
  unfold assignDefaults
  exact setCol_keys_nodup _ _ _ (setCol_keys_nodup _ _ _ (setCol_keys_nodup _ _ _
    (setCol_keys_nodup _ _ _ (setCol_keys_nodup _ _ _ (setCol_keys_nodup _ _ _
      (setCol_keys_nodup _ _ _ h))))))

theorem rowGet_assignDefaults_each (r : List (String × PVal)) :
    rowGet (assignDefaults r) "all_day_event" = some (.pbool false) ∧
    rowGet (assignDefaults r) "time_zone" = some (.str "America/New_York") ∧
    rowGet (assignDefaults r) "end_time" = some (.str "23:59:59") ∧
    rowGet (assignDefaults r) "event_cost" = some (.pnat 0) ∧
    rowGet (assignDefaults r) "currency" = some (.str "$") ∧
    rowGet (assignDefaults r) "venue" = some (.str "Please refer to website") ∧
    rowGet (assignDefaults r) "event_organizers" =
      some (.str "Potomac Appalachian Trail Club") := by
  unfold assignDefaults
  refine ⟨?_, ?_, ?_, ?_, ?_, ?_, ?_⟩
  · rw [rowGet_setCol_ne _ _ _ _ (by decide), rowGet_setCol_ne _ _ _ _ (by decide),
      rowGet_setCol_ne _ _ _ _ (by decide), rowGet_setCol_ne _ _ _ _ (by decide),
      rowGet_setCol_ne _ _ _ _ (by decide), rowGet_setCol_ne _ _ _ _ (by decide)]
    exact rowGet_setCol_self _ _ _
  · rw [rowGet_setCol_ne _ _ _ _ (by decide), rowGet_setCol_ne _ _ _ _ (by decide),
      rowGet_setCol_ne _ _ _ _ (by decide), rowGet_setCol_ne _ _ _ _ (by decide),
      rowGet_setCol_ne _ _ _ _ (by decide)]
    exact rowGet_setCol_self _ _ _
  · rw [rowGet_setCol_ne _ _ _ _ (by decide), rowGet_setCol_ne _ _ _ _ (by decide),
      rowGet_setCol_ne _ _ _ _ (by decide), rowGet_setCol_ne _ _ _ _ (by decide)]
    exact rowGet_setCol_self _ _ _
  · rw [rowGet_setCol_ne _ _ _ _ (by decide), rowGet_setCol_ne _ _ _ _ (by decide),
      rowGet_setCol_ne _ _ _ _ (by decide)]
    exact rowGet_setCol_self _ _ _
  · rw [rowGet_setCol_ne _ _ _ _ (by decide), rowGet_setCol_ne _ _ _ _ (by decide)]
    exact rowGet_setCol_self _ _ _
  · rw [rowGet_setCol_ne _ _ _ _ (by decide)]
    exact rowGet_setCol_self _ _ _
  · exact rowGet_setCol_self _ _ _

theorem fmtRow_inv (duParse : String → Option PyDT) (b r2 : List (String × PVal))
    (h : fmtRow duParse b = some r2) :
    ∃ sd dtd st dtt,
      rowGet b "Start Date" = some (.str sd) ∧ duParse sd = some dtd ∧
      rowGet b "Start Time" = some (.str st) ∧ duParse st = some dtt ∧
      r2 = setCol (setCol (setCol b "start_date" (.pdate dtd.dateStr))
        "start_time" (.str dtt.hmsStr)) "end_date" (.pdate dtd.dateStr) := by
  unfold fmtRow at h
  cases h1 : rowGet b "Start Date" with
  | none => rw [h1] at h; exact absurd h (by simp)
  | some pv =>
    rw [h1] at h
    cases pv with
    | pbool b2 => exact absurd h (by simp)
    | pnat n2 => exact absurd h (by simp)
    | pdate d2 => exact absurd h (by simp)
    | str sd =>
      dsimp only at h
      cases h2 : duParse sd with
      | none => rw [h2] at h; exact absurd h (by simp)
      | some dtd =>
        rw [h2] at h
        dsimp only at h
        cases h3 : rowGet b "Start Time" with
        | none => rw [h3] at h; exact absurd h (by simp)
        | some pv2 =>
          rw [h3] at h
          cases pv2 with
          | pbool b2 => exact absurd h (by simp)
          | pnat n2 => exact absurd h (by simp)
          | pdate d2 => exact absurd h (by simp)
          | str st =>
            dsimp only at h
            cases h4 : duParse st with
            | none => rw [h4] at h; exact absurd h (by simp)
            | some dtt =>
              rw [h4] at h
              dsimp only at h
              injection h with h5
              exact ⟨sd, dtd, st, dtt, rfl, h2, rfl, h4, h5.symm⟩

theorem mapOptM_mem (f : α → Option β) (l : List α) (ys : List β)
    (h : mapOptM f l = some ys) : ∀ y ∈ ys, ∃ x ∈ l, f x = some y := by
  induction l generalizing ys with
  | nil =>
    rw [mapOptM] at h
    injection h with h
    subst h
    simp
  | cons x xs ih =>
    rw [mapOptM] at h
    cases h1 : f x with
    | none => rw [h1] at h; exact absurd h (by simp)
    | some y0 =>
      rw [h1] at h
      cases h2 : mapOptM f xs with
      | none => rw [h2] at h; exact absurd h (by simp)
      | some ys0 =>
        rw [h2] at h
        dsimp only at h
        injection h with h
        subst h
        intro y hy
        rcases List.mem_cons.mp hy with rfl | hy2
        · exact ⟨x, List.mem_cons_self _ _, h1⟩
        · obtain ⟨x2, hx2, hfx2⟩ := ih ys0 h2 y hy2
          exact ⟨x2, List.mem_cons_of_mem _ hx2, hfx2⟩

theorem processPara_nodup (acc : List (String × String)) (p : PNode)
    (acc2 : List (String × String)) (hacc : (acc.map Prod.fst).Nodup)
    (h : processPara acc p = .ok acc2) : (acc2.map Prod.fst).Nodup := by
  unfold processPara at h
  by_cases hkw : kwMatch p = true
  · rw [if_pos hkw] at h
    cases h1 : exactlyOne (findAll "strong" p) with
    | error e => rw [h1] at h; exact absurd h (by simp)
    | ok header =>
      rw [h1] at h
      dsimp only at h
      cases h2 : lastElem (childrenOf p) with
      | error e => rw [h2] at h; exact absurd h (by simp)
      | ok valNode =>
        rw [h2] at h
        dsimp only at h
        by_cases h3 : rpartBeforeColon (nodeText header) = "www"
        · rw [if_pos h3] at h
          cases h4 : exactlyOne (findAll "a" p) with
          | error e => rw [h4] at h; exact absurd h (by simp)
          | ok aTag =>
            rw [h4] at h
            dsimp only at h
            cases h5 : hrefOf aTag with
            | none => rw [h5] at h; exact absurd h (by simp)
            | some href =>
              rw [h5] at h
              dsimp only at h
              injection h with h
              subst h
              exact setCol_keys_nodup _ _ _ hacc
        · rw [if_neg h3] at h
          injection h with h
          subst h
          exact setCol_keys_nodup _ _ _ hacc
  · rw [if_neg hkw] at h
    injection h with h
    subst h
    exact hacc

theorem processParas_nodup (l : List PNode) (acc r : List (String × String))
    (hacc : (acc.map Prod.fst).Nodup) (h : processParas acc l = .ok r) :
    (r.map Prod.fst).Nodup := by
  induction l generalizing acc with
  | nil =>
    rw [processParas] at h
    injection h with h
    subst h
    exact hacc
  | cons p ps ih =>
    rw [processParas] at h
    cases h1 : processPara acc p with
    | error e => rw [h1] at h; exact absurd h (by simp)
    | ok acc2 =>
      rw [h1] at h
      exact ih acc2 (processPara_nodup acc p acc2 hacc h1) h

theorem find_event_data_nodup (d : PNode) (r : List (String × String))
    (h : find_event_data d = .ok (some r)) : (r.map Prod.fst).Nodup := by
  unfold find_event_data at h
  cases h1 : (findAll "th" d).getLast? with
  | none => rw [h1] at h; exact absurd h (by simp)
  | some th =>
    rw [h1] at h
    cases h2 : (findAll "p" d).getLast? with
    | none => rw [h2] at h; exact absurd h (by simp)
    | some pl =>
      rw [h2] at h
      dsimp only at h
      cases h3 : processParas
          [("Event Name", ⟨pyStrip (nodeText th).data⟩),
           ("Description", ⟨pyStrip (nodeText pl).data⟩)]
          (findAll "p" d) with
      | error e => rw [h3] at h; exact absurd h (by simp)
      | ok r0 =>
        rw [h3] at h
        dsimp only at h
        injection h with h
        injection h with h
        subst h
        exact processParas_nodup _ _ _ (by simp) h3

theorem docsGo_nodup (ds : List PNode) (recs : List (List (String × String)))
    (h : docsGo ds = .ok recs) : ∀ r ∈ recs, (r.map Prod.fst).Nodup := by
  induction ds generalizing recs with
  | nil =>
    rw [docsGo] at h
    injection h with h
    subst h
    simp
  | cons d ds2 ih =>
    rw [docsGo] at h
    cases hf : find_event_data d with
    | error e => rw [hf] at h; exact absurd h (by simp)
    | ok o =>
      rw [hf] at h
      cases o with
      | none =>
        dsimp only at h
        exact ih recs h
      | some r =>
        dsimp only at h
        by_cases he : r.isEmpty = true
        · rw [if_pos he] at h
          exact ih recs h
        · rw [if_neg he] at h
          cases hg : docsGo ds2 with
          | error e => rw [hg] at h; exact absurd h (by simp)
          | ok rs =>
            rw [hg] at h
            dsimp only at h
            injection h with h
            subst h
            intro x hx
            rcases List.mem_cons.mp hx with rfl | hx2
            · exact find_event_data_nodup d x hf
            · exact ih rs hg x hx2

theorem patcRecords_nodup (index : PNode) (fetch : String → PNode)
    (recs : List (List (String × String))) (h : patcRecords index fetch = .ok recs) :
    ∀ r ∈ recs, (r.map Prod.fst).Nodup := by
  rw [patcRecords_eq] at h
  exact docsGo_nodup _ _ h

/-- Inversion of the frame stage of `main`: every emitted row is the
renamed, dropped image of the `fmtRow` output of some extracted record's
assigned row. -/
theorem patcMain_rows (index : PNode) (fetch : String → PNode)
    (duParse : String → Option PyDT) (recs : List (List (String × String)))
    (rows : List (List (String × PVal)))
    (hrecs : patcRecords index fetch = .ok recs)
    (hmain : patcMain index fetch duParse = .ok rows) :
    ∀ row ∈ rows, ∃ r ∈ recs, ∃ r2,
      fmtRow duParse (assignDefaults (toPValRow r)) = some r2 ∧
      row = renameRow (dropCols r2) := by
  unfold patcMain at hmain
  rw [hrecs] at hmain
  dsimp only at hmain
  cases hfmt : format_df_time_columns duParse ((recs.map toPValRow).map assignDefaults) with
  | none => rw [hfmt] at hmain; exact absurd hmain (by simp)
  | some df2 =>
    rw [hfmt] at hmain
    dsimp only at hmain
    injection hmain with hmain
    subst hmain
    unfold format_df_time_columns at hfmt
    by_cases hcols : colExists ((recs.map toPValRow).map assignDefaults) "Start Date" = true ∧
        colExists ((recs.map toPValRow).map assignDefaults) "Start Time" = true
    · rw [if_pos hcols] at hfmt
      intro row hrow
      obtain ⟨r2, hr2mem, hroweq⟩ := List.mem_map.mp hrow
      obtain ⟨x, hxmem, hfx⟩ := mapOptM_mem _ _ _ hfmt r2 hr2mem
      obtain ⟨y, hymem, hyx⟩ := List.mem_map.mp hxmem
      obtain ⟨r, hrmem, hry⟩ := List.mem_map.mp hymem
      subst hyx
      subst hry
      exact ⟨r, hrmem, r2, hfx, hroweq.symm⟩
    · rw [if_neg hcols] at hfmt
      exact absurd hfmt (by simp)

/-- The canonical content of one emitted row: the date/time columns
derive from the record's "Start Date"/"Start Time" strings and the seven
`assign` defaults survive the pipe, drop and rename. -/
theorem row_canonical (duParse : String → Option PyDT) (r : List (String × String))
    (r2 : List (String × PVal))
    (hnd : (r.map Prod.fst).Nodup)
    (hkeys : ∀ k ∈ r.map Prod.fst, k ∉ renameTargets)
    (hfmt : fmtRow duParse (assignDefaults (toPValRow r)) = some r2) :
    (∃ sd dtd, rowGet r "Start Date" = some sd ∧ duParse sd = some dtd ∧
      rowGet (renameRow (dropCols r2)) "Event Start Date" = some (.pdate dtd.dateStr) ∧
      rowGet (renameRow (dropCols r2)) "Event End Date" = some (.pdate dtd.dateStr)) ∧
    rowGet (renameRow (dropCols r2)) "Event Currency Symbol" = some (.str "$") ∧
    rowGet (renameRow (dropCols r2)) "Timezone" = some (.str "America/New_York") ∧
    rowGet (renameRow (dropCols r2)) "Event Organizers" =
      some (.str "Potomac Appalachian Trail Club") ∧
    rowGet (renameRow (dropCols r2)) "All Day Event" = some (.pbool false) ∧
    rowGet (renameRow (dropCols r2)) "Event End Time" = some (.str "23:59:59") ∧
    rowGet (renameRow (dropCols r2)) "Event Cost" = some (.pnat 0) ∧
    rowGet (renameRow (dropCols r2)) "Event Venue Name" =
      some (.str "Please refer to website") := by
  obtain ⟨sd, dtd, st, dtt, hsd, hdtd, hst, hdtt, hr2⟩ := fmtRow_inv duParse _ r2 hfmt
  have hndp : ((toPValRow r).map Prod.fst).Nodup := by
    rw [keys_toPValRow]
    exact hnd
  have hndb : ((assignDefaults (toPValRow r)).map Prod.fst).Nodup :=
    assignDefaults_keys_nodup _ hndp
  have hnd2 : (r2.map Prod.fst).Nodup := by
    rw [hr2]
    exact setCol_keys_nodup _ _ _ (setCol_keys_nodup _ _ _ (setCol_keys_nodup _ _ _ hndb))
  have hsub : ∀ k ∈ r2.map Prod.fst, k ∈ pipelineKeys ∨ k ∈ r.map Prod.fst := by
    intro k hk
    rw [hr2] at hk
    rcases keys_setCol_mem _ _ _ _ hk with rfl | hk
    · exact Or.inl (by decide)
    rcases keys_setCol_mem _ _ _ _ hk with rfl | hk
    · exact Or.inl (by decide)
    rcases keys_setCol_mem _ _ _ _ hk with rfl | hk
    · exact Or.inl (by decide)
    rcases keys_assignDefaults_mem _ _ hk with hk | hk
    · exact Or.inl
        (List.mem_cons_of_mem _ (List.mem_cons_of_mem _ (List.mem_cons_of_mem _ hk)))
    · rw [keys_toPValRow] at hk
      exact Or.inr hk
  have hpass : ∀ kk : String, kk ≠ "start_date" → kk ≠ "start_time" → kk ≠ "end_date" →
      rowGet r2 kk = rowGet (assignDefaults (toPValRow r)) kk := by
    intro kk hk1 hk2 hk3
    rw [hr2, rowGet_setCol_ne _ _ _ _ hk3, rowGet_setCol_ne _ _ _ _ hk2,
      rowGet_setCol_ne _ _ _ _ hk1]
  have hbase := rowGet_assignDefaults_each (toPValRow r)
  have hsdr : rowGet r "Start Date" = some sd := by
    rw [rowGet_assignDefaults_ne _ _ (by decide), rowGet_toPValRow] at hsd
    cases h0 : rowGet r "Start Date" with
    | none => rw [h0] at hsd; exact absurd hsd (by simp)
    | some a =>
      rw [h0] at hsd
      simp only [Option.map_some'] at hsd
      injection hsd with hsd2
      injection hsd2 with hsd3
      rw [hsd3]
  have hED : rowGet r2 "end_date" = some (.pdate dtd.dateStr) := by
    rw [hr2]
    exact rowGet_setCol_self _ _ _
  have hSD : rowGet r2 "start_date" = some (.pdate dtd.dateStr) := by
    rw [hr2, rowGet_setCol_ne _ _ _ _ (by decide), rowGet_setCol_ne _ _ _ _ (by decide)]
    exact rowGet_setCol_self _ _ _
  refine ⟨⟨sd, dtd, hsdr, hdtd, ?_, ?_⟩, ?_, ?_, ?_, ?_, ?_, ?_, ?_⟩
  · exact renamed_lookup r2 (r.map Prod.fst) hnd2 hsub hkeys "start_date"
      "Event Start Date" _ (by decide) (by decide) (by decide)
      (renamePairs_src _ _ (by decide)) (by decide) (by decide) hSD
  · exact renamed_lookup r2 (r.map Prod.fst) hnd2 hsub hkeys "end_date"
      "Event End Date" _ (by decide) (by decide) (by decide)
      (renamePairs_src _ _ (by decide)) (by decide) (by decide) hED
  · exact renamed_lookup r2 (r.map Prod.fst) hnd2 hsub hkeys "currency"
      "Event Currency Symbol" _ (by decide) (by decide) (by decide)
      (renamePairs_src _ _ (by decide)) (by decide) (by decide)
      (by rw [hpass "currency" (by decide) (by decide) (by decide)]
          exact hbase.2.2.2.2.1)
  · exact renamed_lookup r2 (r.map Prod.fst) hnd2 hsub hkeys "time_zone"
      "Timezone" _ (by decide) (by decide) (by decide)
      (renamePairs_src _ _ (by decide)) (by decide) (by decide)
      (by rw [hpass "time_zone" (by decide) (by decide) (by decide)]
          exact hbase.2.1)
  · exact renamed_lookup r2 (r.map Prod.fst) hnd2 hsub hkeys "event_organizers"
      "Event Organizers" _ (by decide) (by decide) (by decide)
      (renamePairs_src _ _ (by decide)) (by decide) (by decide)
      (by rw [hpass "event_organizers" (by decide) (by decide) (by decide)]
          exact hbase.2.2.2.2.2.2)
  · exact renamed_lookup r2 (r.map Prod.fst) hnd2 hsub hkeys "all_day_event"
      "All Day Event" _ (by decide) (by decide) (by decide)
      (renamePairs_src _ _ (by decide)) (by decide) (by decide)
      (by rw [hpass "all_day_event" (by decide) (by decide) (by decide)]
          exact hbase.1)
  · exact renamed_lookup r2 (r.map Prod.fst) hnd2 hsub hkeys "end_time"
      "Event End Time" _ (by decide) (by decide) (by decide)
      (renamePairs_src _ _ (by decide)) (by decide) (by decide)
      (by rw [hpass "end_time" (by decide) (by decide) (by decide)]
          exact hbase.2.2.1)
  · exact renamed_lookup r2 (r.map Prod.fst) hnd2 hsub hkeys "event_cost"
      "Event Cost" _ (by decide) (by decide) (by decide)
      (renamePairs_src _ _ (by decide)) (by decide) (by decide)
      (by rw [hpass "event_cost" (by decide) (by decide) (by decide)]
          exact hbase.2.2.2.1)
  · exact renamed_lookup r2 (r.map Prod.fst) hnd2 hsub hkeys "venue"
      "Event Venue Name" _ (by decide) (by decide) (by decide)
      (renamePairs_src _ _ (by decide)) (by decide) (by decide)
      (by rw [hpass "venue" (by decide) (by decide) (by decide)]
          exact hbase.2.2.2.2.2.1)

/-- Witness for the amended C4: a crawl visiting one good page and one
malformed page returns exactly one record. -/
theorem c4_amended_witness :
    ∃ rows, patcMain patcIndexPair patcFetchPair toyParse = .ok rows ∧
      rows.length = (crawlDocs patcIndexPair patcFetchPair).length - 1 :=
  c4_amended patcIndexPair patcFetchPair toyParse [goodPage] [] badPage rfl
    (Or.inl rfl)
    (by
      intro d hd
      simp only [List.append_nil, List.mem_singleton] at hd
      rw [hd]
      rfl)
    (by simp)

/-- **C9.** Every record `patc.main` emits carries the fixed default
field values written by `assign` and renamed by `RENAME_MAP`: Event
Currency Symbol "$", Timezone "America/New_York", Event Organizers
"Potomac Appalachian Trail Club", All Day Event false, Event End Time
"23:59:59", Event Cost 0 and Event Venue Name "Please refer to website"
— provided the crawl succeeds and no extracted field label collides
with a canonical column name. -/
theorem c9_defaults (index : PNode) (fetch : String → PNode)
    (duParse : String → Option PyDT)
    (recs : List (List (String × String))) (rows : List (List (String × PVal)))
    (hrecs : patcRecords index fetch = .ok recs)
    (hkeys : ∀ r ∈ recs, ∀ k ∈ r.map Prod.fst, k ∉ renameTargets)
    (hmain : patcMain index fetch duParse = .ok rows) :
    ∀ row ∈ rows,
      rowGet row "Event Currency Symbol" = some (.str "$") ∧
      rowGet row "Timezone" = some (.str "America/New_York") ∧
      rowGet row "Event Organizers" = some (.str "Potomac Appalachian Trail Club") ∧
      rowGet row "All Day Event" = some (.pbool false) ∧
      rowGet row "Event End Time" = some (.str "23:59:59") ∧
      rowGet row "Event Cost" = some (.pnat 0) ∧
      rowGet row "Event Venue Name" = some (.str "Please refer to website") := by
  intro row hrow
  obtain ⟨r, hrmem, r2, hfmt, hroweq⟩ :=
    patcMain_rows index fetch duParse recs rows hrecs hmain row hrow
  have hnd := patcRecords_nodup index fetch recs hrecs r hrmem
  have hc := row_canonical duParse r r2 hnd (hkeys r hrmem) hfmt
  rw [hroweq]
  exact ⟨hc.2.1, hc.2.2.1, hc.2.2.2.1, hc.2.2.2.2.1, hc.2.2.2.2.2.1,
    hc.2.2.2.2.2.2.1, hc.2.2.2.2.2.2.2⟩

/-- Witness for C9: the pair crawl's single emitted row carries all
seven defaults. -/
theorem c9_defaults_witness :
    rowGet patcCanonRow "Event Currency Symbol" = some (.str "$") ∧
    rowGet patcCanonRow "Timezone" = some (.str "America/New_York") ∧
    rowGet patcCanonRow "Event Organizers" = some (.str "Potomac Appalachian Trail Club") ∧
    rowGet patcCanonRow "All Day Event" = some (.pbool false) ∧
    rowGet patcCanonRow "Event End Time" = some (.str "23:59:59") ∧
    rowGet patcCanonRow "Event Cost" = some (.pnat 0) ∧
    rowGet patcCanonRow "Event Venue Name" = some (.str "Please refer to website") :=
  c9_defaults patcIndexPair patcFetchPair toyParse [patcGoodRec] [patcCanonRow]
    (by rfl) (by decide) (by rfl) patcCanonRow (List.mem_singleton.mpr rfl)

/-- **C10.** For every record `patc.main` emits, the Event End Date
column equals the Event Start Date column: `format_df_time_columns`
derives both from the date part of parsing the same extracted
"Start Date" string — under the same crawl-success and no-label-collision
hypotheses as C9. -/
theorem c10_end_eq_start (index : PNode) (fetch : String → PNode)
    (duParse : String → Option PyDT)
    (recs : List (List (String × String))) (rows : List (List (String × PVal)))
    (hrecs : patcRecords index fetch = .ok recs)
    (hkeys : ∀ r ∈ recs, ∀ k ∈ r.map Prod.fst, k ∉ renameTargets)
    (hmain : patcMain index fetch duParse = .ok rows) :
    ∀ row ∈ rows, ∃ r ∈ recs, ∃ sd dtd,
      rowGet r "Start Date" = some sd ∧ duParse sd = some dtd ∧
      rowGet row "Event Start Date" = some (.pdate dtd.dateStr) ∧
      rowGet row "Event End Date" = some (.pdate dtd.dateStr) := by
  intro row hrow
  obtain ⟨r, hrmem, r2, hfmt, hroweq⟩ :=
    patcMain_rows index fetch duParse recs rows hrecs hmain row hrow
  have hnd := patcRecords_nodup index fetch recs hrecs r hrmem
  obtain ⟨⟨sd, dtd, hs1, hs2, hs3, hs4⟩, -⟩ :=
    row_canonical duParse r r2 hnd (hkeys r hrmem) hfmt
  refine ⟨r, hrmem, sd, dtd, hs1, hs2, ?_, ?_⟩
  · rw [hroweq]
    exact hs3
  · rw [hroweq]
    exact hs4

/-- Witness for C10: the pair crawl's single emitted row has equal
start and end dates, both parsed from the extracted "2019-01-25". -/
theorem c10_end_eq_start_witness :
    ∃ r ∈ [patcGoodRec], ∃ sd dtd,
      rowGet r "Start Date" = some sd ∧ toyParse sd = some dtd ∧
      rowGet patcCanonRow "Event Start Date" = some (.pdate dtd.dateStr) ∧
      rowGet patcCanonRow "Event End Date" = some (.pdate dtd.dateStr) :=
  c10_end_eq_start patcIndexPair patcFetchPair toyParse [patcGoodRec] [patcCanonRow]
    (by rfl) (by decide) (by rfl) patcCanonRow (List.mem_singleton.mpr rfl)

end CapitalNature
